import Mathlib

/-!
# Verification of the jafr_ng-core role/session/interceptor layer

Shallow embedding of the role-resolution, route-guard, banner, interceptor,
preferences and browser-storage logic of the `jafr_ng-core` Angular library,
together with theorems settling the specification's testable properties.

Conventions of the embedding:
* Angular services holding mutable fields become explicit state records;
  methods become functions from state (plus inputs) to results (plus state).
* Observable/promise pipelines are collapsed to their synchronous outcome:
  an input encodes the eventual emission of the external collaborator and the
  function computes the value the subscription callbacks produce.
* JavaScript `Map` becomes an association list with first-match lookup,
  JavaScript `Set` insertion becomes append-if-absent, and machine numbers
  (`Date.now()` timestamps, HTTP status codes) become `Int`/`Nat`.
-/

namespace JafrCore

/-- Deployment stage identifiers (`Stage` enum in `proxy.interface.ts` /
`stage.interface`). -/
inductive Stage where
  | BOOTSTRAP
  | DEV
  | ENTW
  | SYST
  | INTG
  | GATE
  | PROD
  | MOCK
deriving Repr, DecidableEq

/-! ## RolesService (`src/services/roles.service.ts`)

The service keeps a reverse index `roleMappingCache : Map<string, string[]>`
from Keycloak role to internal role names.  `mapKeycloakRolesToInternalRoles`
only reads that cache; we embed the service state explicitly and the method as
a function returning both its result and the (unchanged) state, so that
"no mutation of the cache" is a provable statement. -/

/-- An internal application role (`InternalRole` interface used by
`roles.service.ts`). -/
structure InternalRole where
  name : String
  displayName : String
  description : String
  keycloakRoles : List String
deriving Repr, DecidableEq

/-- The part of `RolesService` state read by
`mapKeycloakRolesToInternalRoles`: the environment's mock flag
(`environmentService.isMock()`), the injected `ADMIN_ROLE` constant, and the
in-memory reverse index `roleMappingCache` (a JS `Map`, embedded as an
association list with first-match lookup). -/
structure RolesState where
  isMock : Bool
  adminRole : String
  roleMappingCache : List (String × List String)
deriving Repr, DecidableEq

/-- JS `Set.add` followed by `Array.from` keeps first-insertion order:
append the element unless it is already present. -/
def setAdd (acc : List String) (x : String) : List String :=
  if x ∈ acc then acc else acc ++ [x]

/-- The loop body of `mapKeycloakRolesToInternalRoles`: fold the Keycloak
roles, looking each up in the cache and adding all mapped internal roles to
the accumulated set. -/
def collectInternalRoles (cache : List (String × List String))
    (keycloakRoles : List String) (acc : List String) : List String :=
  keycloakRoles.foldl
    (fun acc keycloakRole =>
      match cache.lookup keycloakRole with
      | some mappedRoles => mappedRoles.foldl setAdd acc
      | none => acc)
    acc

/-- `RolesService.mapKeycloakRolesToInternalRoles` (roles.service.ts):
in mock mode returns `[ADMIN_ROLE]`; for a missing/empty input returns `[]`;
otherwise collects, over every Keycloak role, the cached internal role names
into a JS `Set` and returns it as an array.  The second component is the
service state after the call (the method only reads the cache). -/
def mapKeycloakRolesToInternalRoles (s : RolesState) (keycloakRoles : List String) :
    List String × RolesState :=
  if s.isMock then ([s.adminRole], s)
  else if keycloakRoles.isEmpty then ([], s)
  else (collectInternalRoles s.roleMappingCache keycloakRoles [], s)

theorem mem_setAdd (acc : List String) (x y : String) :
    y ∈ setAdd acc x ↔ y ∈ acc ∨ y = x := by
  unfold setAdd
  split
  · rename_i hx
    constructor
    · exact fun h => Or.inl h
    · rintro (h | rfl) <;> assumption
  · simp [List.mem_append]

theorem mem_foldl_setAdd (ms : List String) (acc : List String) (y : String) :
    y ∈ ms.foldl setAdd acc ↔ y ∈ acc ∨ y ∈ ms := by
  induction ms generalizing acc with
  | nil => simp
  | cons m ms ih =>
    simp only [List.foldl_cons, ih, mem_setAdd, List.mem_cons]
    tauto

theorem mem_collectInternalRoles (cache : List (String × List String))
    (roles : List String) (acc : List String) (y : String) :
    y ∈ collectInternalRoles cache roles acc ↔
      y ∈ acc ∨ ∃ kc ∈ roles, ∃ ms, cache.lookup kc = some ms ∧ y ∈ ms := by
  induction roles generalizing acc with
  | nil => simp [collectInternalRoles]
  | cons kc roles ih =>
    simp only [collectInternalRoles, List.foldl_cons] at *
    rcases hkc : cache.lookup kc with _ | ms
    · simp only [ih]
      constructor
      · rintro (h | ⟨kc2, hmem, ms2, hlk, hy⟩)
        · exact Or.inl h
        · exact Or.inr ⟨kc2, List.mem_cons_of_mem _ hmem, ms2, hlk, hy⟩
      · rintro (h | ⟨kc2, hmem, ms2, hlk, hy⟩)
        · exact Or.inl h
        · rcases List.mem_cons.mp hmem with rfl | hmem
          · rw [hkc] at hlk; cases hlk
          · exact Or.inr ⟨kc2, hmem, ms2, hlk, hy⟩
    · simp only [ih, mem_foldl_setAdd]
      constructor
      · rintro ((h | h) | ⟨kc2, hmem, ms2, hlk, hy⟩)
        · exact Or.inl h
        · exact Or.inr ⟨kc, List.mem_cons_self _ _, ms, hkc, h⟩
        · exact Or.inr ⟨kc2, List.mem_cons_of_mem _ hmem, ms2, hlk, hy⟩
      · rintro (h | ⟨kc2, hmem, ms2, hlk, hy⟩)
        · exact Or.inl (Or.inl h)
        · rcases List.mem_cons.mp hmem with rfl | hmem
          · rw [hkc] at hlk
            cases hlk
            exact Or.inl (Or.inr hy)
          · exact Or.inr ⟨kc2, hmem, ms2, hlk, hy⟩

/-- **C1.** For every cache state and every pair of permuted Keycloak-role
lists, `mapKeycloakRolesToInternalRoles` leaves the service state (in
particular the reverse role-mapping cache) untouched and returns the same set
of internal role names for both input orders. -/
theorem mapKeycloakRolesToInternalRoles_pure_order_independent
    (s : RolesState) (roles1 roles2 : List String) (h : roles1.Perm roles2) :
    (mapKeycloakRolesToInternalRoles s roles1).2 = s ∧
      ∀ y, y ∈ (mapKeycloakRolesToInternalRoles s roles1).1 ↔
        y ∈ (mapKeycloakRolesToInternalRoles s roles2).1 := by
  constructor
  · unfold mapKeycloakRolesToInternalRoles
    split
    · rfl
    · split <;> rfl
  · intro y
    unfold mapKeycloakRolesToInternalRoles
    split
    · rfl
    · have hlen : roles1.length = roles2.length := h.length_eq
      by_cases h1 : roles1.isEmpty
      · have h2 : roles2.isEmpty := by
          rcases roles2 with _ | ⟨a, l⟩
          · rfl
          · rcases roles1 with _ | ⟨b, m⟩
            · simp at hlen
            · simp [List.isEmpty] at h1
        simp [h1, h2]
      · have h2 : ¬ roles2.isEmpty := by
          intro h2
          rcases roles2 with _ | ⟨a, l⟩
          · rcases roles1 with _ | ⟨b, m⟩
            · exact h1 rfl
            · simp at hlen
          · simp [List.isEmpty] at h2
        simp only [h1, h2, Bool.false_eq_true, if_false]
        rw [mem_collectInternalRoles, mem_collectInternalRoles]
        constructor
        · rintro (hy | ⟨kc, hmem, ms, hlk, hy⟩)
          · simp at hy
          · exact Or.inr ⟨kc, h.mem_iff.mp hmem, ms, hlk, hy⟩
        · rintro (hy | ⟨kc, hmem, ms, hlk, hy⟩)
          · simp at hy
          · exact Or.inr ⟨kc, h.mem_iff.mpr hmem, ms, hlk, hy⟩

/-- Witness for C1 at a concrete cache and a concrete permutation. -/
theorem mapKeycloakRolesToInternalRoles_pure_order_independent_witness :
    (mapKeycloakRolesToInternalRoles
        ⟨false, "ADMIN", [("kc-a", ["reader"]), ("kc-b", ["writer", "reader"])]⟩
        ["kc-a", "kc-b"]).2 =
      ⟨false, "ADMIN", [("kc-a", ["reader"]), ("kc-b", ["writer", "reader"])]⟩ ∧
    ("writer" ∈ (mapKeycloakRolesToInternalRoles
        ⟨false, "ADMIN", [("kc-a", ["reader"]), ("kc-b", ["writer", "reader"])]⟩
        ["kc-a", "kc-b"]).1 ↔
      "writer" ∈ (mapKeycloakRolesToInternalRoles
        ⟨false, "ADMIN", [("kc-a", ["reader"]), ("kc-b", ["writer", "reader"])]⟩
        ["kc-b", "kc-a"]).1) := by
  have h := mapKeycloakRolesToInternalRoles_pure_order_independent
    ⟨false, "ADMIN", [("kc-a", ["reader"]), ("kc-b", ["writer", "reader"])]⟩
    ["kc-a", "kc-b"] ["kc-b", "kc-a"] (by decide)
  exact ⟨h.1, h.2 "writer"⟩

/-! ## RoleGuard (`src/guards/role.guard.ts`)

`checkRouteDataRoles` reads the declarative per-route requirements
(`roles` = any-of, `allRoles` = all-of, `excludeRoles` = none-of) from the
route data and either allows (`true`) or returns a redirect `UrlTree` to
`/dashboard` with query parameters `error` and `reason`. -/

/-- Declarative role requirements in a route's `data`
(`RoleRouteData` in role.guard.ts); `none` = key absent. -/
structure RoleRouteData where
  roles : Option (List String)
  allRoles : Option (List String)
  excludeRoles : Option (List String)
deriving Repr, DecidableEq

/-- Result of `checkRouteDataRoles`: `true`, or a redirect `UrlTree` to
`/dashboard` carrying the query parameters `error` and `reason`. -/
inductive GuardResult where
  | allow
  | redirect (error : String) (reason : String)
deriving Repr, DecidableEq

/-- Third check of `checkRouteDataRoles`: any-of roles
(`requiredRoles && requiredRoles.length > 0`, then
`requiredRoles.some(role => userRoles.includes(role))`, embedded as the
equivalent bounded existential). -/
def checkAnyRequiredRoles (userRoles : List String) (data : RoleRouteData) :
    GuardResult :=
  match data.roles with
  | some requiredRoles =>
      if requiredRoles.length > 0 ∧ ¬ ∃ role ∈ requiredRoles, role ∈ userRoles then
        .redirect "access-denied" "no-required-role"
      else .allow
  | none => .allow

/-- Second check of `checkRouteDataRoles`: all-of roles
(`requiredAllRoles && requiredAllRoles.length > 0`, then
`requiredAllRoles.every(role => userRoles.includes(role))`), falling through
to the any-of check. -/
def checkAllRequiredRoles (userRoles : List String) (data : RoleRouteData) :
    GuardResult :=
  match data.allRoles with
  | some requiredAllRoles =>
      if requiredAllRoles.length > 0 ∧ ¬ ∀ role ∈ requiredAllRoles, role ∈ userRoles then
        .redirect "access-denied" "insufficient-roles"
      else checkAnyRequiredRoles userRoles data
  | none => checkAnyRequiredRoles userRoles data

/-- `RoleGuard.checkRouteDataRoles` (role.guard.ts): if no requirement key is
declared, allow; otherwise (prepending `ADMIN_ROLE` to the user's roles in
mock stage) check exclusion roles first
(`excludeRoles.some(r => userRoles.includes(r))`), then all-required, then
any-required. -/
def checkRouteDataRoles (isMockStage : Bool) (adminRole : String)
    (authRoles : List String) (data : RoleRouteData) : GuardResult :=
  if data.roles = none ∧ data.allRoles = none ∧ data.excludeRoles = none then
    .allow
  else
    let userRoles := if isMockStage then adminRole :: authRoles else authRoles
    match data.excludeRoles with
    | some excludeRoles =>
        if ∃ excludeRole ∈ excludeRoles, excludeRole ∈ userRoles then
          .redirect "access-denied" "excluded-role"
        else checkAllRequiredRoles userRoles data
    | none => checkAllRequiredRoles userRoles data

/-- **C2.** With all three requirement sets declared, the guard checks
exclusion first and deny wins: any held excluded role forces the
`excluded-role` redirect regardless of the other sets (in particular a role
in both a required set and the excluded set); only with no excluded role held
is the all-required set evaluated, and only after it passes the any-required
set, in that order. -/
theorem checkRouteDataRoles_exclusion_precedence
    (adminRole : String) (userRoles anyOf allOf exclude : List String) :
    ((∃ r, r ∈ exclude ∧ r ∈ userRoles) →
      checkRouteDataRoles false adminRole userRoles
          ⟨some anyOf, some allOf, some exclude⟩ =
        .redirect "access-denied" "excluded-role") ∧
    ((∃ r, (r ∈ anyOf ∨ r ∈ allOf) ∧ r ∈ exclude ∧ r ∈ userRoles) →
      checkRouteDataRoles false adminRole userRoles
          ⟨some anyOf, some allOf, some exclude⟩ =
        .redirect "access-denied" "excluded-role") ∧
    ((∀ r ∈ exclude, r ∉ userRoles) → ¬ (∀ r ∈ allOf, r ∈ userRoles) →
      checkRouteDataRoles false adminRole userRoles
          ⟨some anyOf, some allOf, some exclude⟩ =
        .redirect "access-denied" "insufficient-roles") ∧
    ((∀ r ∈ exclude, r ∉ userRoles) → (∀ r ∈ allOf, r ∈ userRoles) →
      anyOf ≠ [] → (∀ r ∈ anyOf, r ∉ userRoles) →
      checkRouteDataRoles false adminRole userRoles
          ⟨some anyOf, some allOf, some exclude⟩ =
        .redirect "access-denied" "no-required-role") ∧
    ((∀ r ∈ exclude, r ∉ userRoles) → (∀ r ∈ allOf, r ∈ userRoles) →
      (anyOf = [] ∨ ∃ r ∈ anyOf, r ∈ userRoles) →
      checkRouteDataRoles false adminRole userRoles
          ⟨some anyOf, some allOf, some exclude⟩ = .allow) := by
  have hmain : ∀ target : GuardResult,
      ((∃ x ∈ exclude, x ∈ userRoles) → target = .redirect "access-denied" "excluded-role") →
      (¬ (∃ x ∈ exclude, x ∈ userRoles) →
        (allOf.length > 0 ∧ ¬ ∀ r ∈ allOf, r ∈ userRoles) →
        target = .redirect "access-denied" "insufficient-roles") →
      (¬ (∃ x ∈ exclude, x ∈ userRoles) →
        ¬ (allOf.length > 0 ∧ ¬ ∀ r ∈ allOf, r ∈ userRoles) →
        (anyOf.length > 0 ∧ ¬ ∃ r ∈ anyOf, r ∈ userRoles) →
        target = .redirect "access-denied" "no-required-role") →
      (¬ (∃ x ∈ exclude, x ∈ userRoles) →
        ¬ (allOf.length > 0 ∧ ¬ ∀ r ∈ allOf, r ∈ userRoles) →
        ¬ (anyOf.length > 0 ∧ ¬ ∃ r ∈ anyOf, r ∈ userRoles) →
        target = .allow) →
      checkRouteDataRoles false adminRole userRoles
          ⟨some anyOf, some allOf, some exclude⟩ = target := by
    intro target h1 h2 h3 h4
    simp only [checkRouteDataRoles, checkAllRequiredRoles, checkAnyRequiredRoles,
      reduceCtorEq, false_and, and_false, if_false]
    split_ifs with c1 c2 c3
    · exact (h1 c1).symm
    · exact (h2 c1 c2).symm
    · exact (h3 c1 c2 c3).symm
    · exact (h4 c1 c2 c3).symm
  refine ⟨?_, ?_, ?_, ?_, ?_⟩
  · rintro ⟨r, hre, hru⟩
    refine hmain _ (fun _ => rfl) ?_ ?_ ?_ <;> intro hc <;> exact absurd ⟨r, hre, hru⟩ hc
  · rintro ⟨r, _, hre, hru⟩
    refine hmain _ (fun _ => rfl) ?_ ?_ ?_ <;> intro hc <;> exact absurd ⟨r, hre, hru⟩ hc
  · intro hex hall
    refine hmain _ ?_ (fun _ _ => rfl) ?_ ?_
    · rintro ⟨r, hre, hru⟩; exact absurd hru (hex r hre)
    · intro _ hc
      exact absurd ⟨List.length_pos.mpr (fun hnil => hall (by simp [hnil])), hall⟩ hc
    · intro _ hc
      exact absurd ⟨List.length_pos.mpr (fun hnil => hall (by simp [hnil])), hall⟩ hc
  · intro hex hall hne hany
    refine hmain _ ?_ ?_ (fun _ _ _ => rfl) ?_
    · rintro ⟨r, hre, hru⟩; exact absurd hru (hex r hre)
    · intro _ hc; exact absurd hall hc.2
    · intro _ _ hc
      refine absurd ⟨List.length_pos.mpr hne, ?_⟩ hc
      rintro ⟨r, hr, hru⟩; exact absurd hru (hany r hr)
  · intro hex hall hany
    refine hmain _ ?_ ?_ ?_ (fun _ _ _ => rfl)
    · rintro ⟨r, hre, hru⟩; exact absurd hru (hex r hre)
    · intro _ hc; exact absurd hall hc.2
    · intro _ _ hc
      rcases hany with rfl | ⟨r, hr, hru⟩
      · simp at hc
      · exact absurd ⟨r, hr, hru⟩ hc.2

/-- Witness for C2: a role both required and excluded denies with the
`excluded-role` reason. -/
theorem checkRouteDataRoles_exclusion_precedence_witness :
    checkRouteDataRoles false "ADMIN" ["editor"]
        ⟨some ["editor"], some [], some ["editor"]⟩ =
      .redirect "access-denied" "excluded-role" :=
  (checkRouteDataRoles_exclusion_precedence "ADMIN" ["editor"]
      ["editor"] [] ["editor"]).2.1
    ⟨"editor", Or.inl (by decide), by decide, by decide⟩

/-! ## AppBannerComponent (`src/layout/app.layout.ts`, `banner.interface`)

The banner component keeps a reactive `bannerState` signal.  `show`, `hide`
and `registerError` update it; `registerError` implements the error-count /
time-window escalation.  Purely visual concerns of the component (auto-hide
timers, body padding, CSS classes) are outside the embedded state. -/

/-- `BannerType` union (`banner.interface`). -/
inductive BannerType where
  | error
  | warning
  | info
  | success
deriving Repr, DecidableEq

/-- `BannerConfig` (`banner.interface`); `none` = optional key absent. -/
structure BannerConfig where
  type : BannerType
  title : String
  message : String
  icon : Option String
  customClasses : Option String
  autoHide : Option Bool
  autoHideTimeout : Option Int
  closable : Option Bool
  id : Option String
deriving Repr, DecidableEq

/-- `ErrorBannerConfig` (`banner.interface`): a `BannerConfig` whose `type`
is fixed to `error`, plus the optional escalation parameters. -/
structure ErrorBannerConfig where
  title : String
  message : String
  icon : Option String
  customClasses : Option String
  autoHide : Option Bool
  autoHideTimeout : Option Int
  closable : Option Bool
  id : Option String
  errorThreshold : Option Nat
  timeWindow : Option Int
deriving Repr, DecidableEq

/-- `BannerState` (`banner.interface`): the component's reactive state. -/
structure BannerState where
  isVisible : Bool
  config : Option BannerConfig
  errorCount : Nat
  errorTimestamps : List Int
deriving Repr, DecidableEq

/-- `AppBannerComponent.DEFAULT_ERROR_THRESHOLD`. -/
def DEFAULT_ERROR_THRESHOLD : Nat := 5

/-- `AppBannerComponent.DEFAULT_TIME_WINDOW_MS`. -/
def DEFAULT_TIME_WINDOW_MS : Int := 10000

/-- Initial value of the `bannerState` signal. -/
def initialBannerState : BannerState :=
  { isVisible := false, config := none, errorCount := 0, errorTimestamps := [] }

/-- `AppBannerComponent.show`: merge the per-type default configuration with
the given one (`{...defaultConfig, ...config, id: config.id ||
`banner-${Date.now()}`}`, embedded field-wise with the explicit config
winning) and set the banner visible; `errorCount`/`errorTimestamps` are kept
by the object spread.  `now` stands for `Date.now()` in the generated id. -/
def bannerShow (now : Int) (config : BannerConfig) (s : BannerState) : BannerState :=
  let defaultConfig : BannerConfig :=
    match config.type with
    | .error =>
        { type := .error, title := config.title, message := config.message,
          icon := some "pi pi-exclamation-triangle", customClasses := none,
          autoHide := some true, autoHideTimeout := some 60000,
          closable := some true, id := none }
    | .warning =>
        { type := .warning, title := config.title, message := config.message,
          icon := some "pi pi-exclamation-triangle", customClasses := none,
          autoHide := some false, autoHideTimeout := none,
          closable := some true, id := none }
    | .info =>
        { type := .info, title := config.title, message := config.message,
          icon := some "pi pi-info-circle", customClasses := none,
          autoHide := some false, autoHideTimeout := none,
          closable := some true, id := none }
    | .success =>
        { type := .success, title := config.title, message := config.message,
          icon := some "pi pi-check-circle", customClasses := none,
          autoHide := some true, autoHideTimeout := some 5000,
          closable := some true, id := none }
  let mergedConfig : BannerConfig :=
    { type := config.type, title := config.title, message := config.message,
      icon := config.icon <|> defaultConfig.icon,
      customClasses := config.customClasses <|> defaultConfig.customClasses,
      autoHide := config.autoHide <|> defaultConfig.autoHide,
      autoHideTimeout := config.autoHideTimeout <|> defaultConfig.autoHideTimeout,
      closable := config.closable <|> defaultConfig.closable,
      id := some (config.id.getD ("banner-" ++ toString now)) }
  { s with isVisible := true, config := some mergedConfig }

/-- `AppBannerComponent.hide`: hide the banner and reset the error state. -/
def bannerHide (s : BannerState) : BannerState :=
  { s with isVisible := false, config := none, errorCount := 0,
           errorTimestamps := [] }

/-- `AppBannerComponent.registerError` (app.layout.ts): drop timestamps
outside the time window, append the current time, update the count, and when
the threshold is reached show the error banner and return `true` (silence
individual toasts); otherwise return `false`.  `now` stands for
`Date.now()`. -/
def registerError (now : Int) (config : Option ErrorBannerConfig)
    (s : BannerState) : Bool × BannerState :=
  let errorThreshold := (config.bind (·.errorThreshold)).getD DEFAULT_ERROR_THRESHOLD
  let timeWindow := (config.bind (·.timeWindow)).getD DEFAULT_TIME_WINDOW_MS
  let validTimestamps :=
    s.errorTimestamps.filter (fun timestamp => now - timestamp < timeWindow)
  let validTimestamps := validTimestamps ++ [now]
  let s1 := { s with errorCount := validTimestamps.length,
                     errorTimestamps := validTimestamps }
  if validTimestamps.length ≥ errorThreshold then
    -- `config?.title || 'core.backendErrorBanner.title'`: JS `||` also
    -- replaces the empty string.
    let title :=
      match config with
      | some c => if c.title = "" then "core.backendErrorBanner.title" else c.title
      | none => "core.backendErrorBanner.title"
    let message :=
      match config with
      | some c => if c.message = "" then "core.backendErrorBanner.message" else c.message
      | none => "core.backendErrorBanner.message"
    let errorConfig : BannerConfig :=
      { type := .error, title := title, message := message,
        icon := config.bind (·.icon),
        customClasses := config.bind (·.customClasses),
        autoHide := config.bind (·.autoHide),
        autoHideTimeout := config.bind (·.autoHideTimeout),
        closable := config.bind (·.closable),
        id := config.bind (·.id) }
    (true, bannerShow now errorConfig s1)
  else
    (false, s1)

/-- **C3.** With threshold `N` and window `W` (defaults 5 and 10000 ms): when
the incoming error is the `N`-th whose timestamp lies within `W` of `now`,
`registerError` shows the banner and returns `true` (the caller silences the
toast); and after `N-1` errors, an error arriving with a gap exceeding `W`
from all of them resets the count to 1 and shows no banner (`false` is
returned and the visibility is untouched). -/
theorem registerError_threshold_and_reset (s : BannerState)
    (config : Option ErrorBannerConfig) (now : Int) :
    (((s.errorTimestamps.filter (fun t => now - t <
          (config.bind (·.timeWindow)).getD DEFAULT_TIME_WINDOW_MS)).length + 1 ≥
        (config.bind (·.errorThreshold)).getD DEFAULT_ERROR_THRESHOLD) →
      (registerError now config s).1 = true ∧
        (registerError now config s).2.isVisible = true) ∧
    ((s.errorTimestamps.length =
        (config.bind (·.errorThreshold)).getD DEFAULT_ERROR_THRESHOLD - 1) →
      1 < (config.bind (·.errorThreshold)).getD DEFAULT_ERROR_THRESHOLD →
      (∀ t ∈ s.errorTimestamps,
        (config.bind (·.timeWindow)).getD DEFAULT_TIME_WINDOW_MS < now - t) →
      (registerError now config s).1 = false ∧
        (registerError now config s).2.errorCount = 1 ∧
        (registerError now config s).2.errorTimestamps = [now] ∧
        (registerError now config s).2.isVisible = s.isVisible) := by
  constructor
  · intro hN
    unfold registerError
    rw [if_pos (by simpa using hN)]
    exact ⟨rfl, rfl⟩
  · intro hcount hN hgap
    have hfilter : s.errorTimestamps.filter (fun t => now - t <
        (config.bind (·.timeWindow)).getD DEFAULT_TIME_WINDOW_MS) = [] := by
      rw [List.filter_eq_nil_iff]
      intro t ht
      simpa using not_lt_of_gt (hgap t ht)
    unfold registerError
    dsimp only
    rw [hfilter]
    rw [if_neg (by simpa using hN)]
    exact ⟨rfl, rfl, rfl, rfl⟩

/-- Witness for C3 with the default threshold 5 and window 10000: the 5th
error within the window escalates; a lone error after a long gap resets. -/
theorem registerError_threshold_and_reset_witness :
    ((registerError 10000 none
        ⟨false, none, 4, [9000, 9200, 9400, 9600]⟩).1 = true ∧
      (registerError 10000 none
        ⟨false, none, 4, [9000, 9200, 9400, 9600]⟩).2.isVisible = true) ∧
    ((registerError 100000 none
        ⟨false, none, 4, [9000, 9200, 9400, 9600]⟩).1 = false ∧
      (registerError 100000 none
        ⟨false, none, 4, [9000, 9200, 9400, 9600]⟩).2.errorCount = 1 ∧
      (registerError 100000 none
        ⟨false, none, 4, [9000, 9200, 9400, 9600]⟩).2.errorTimestamps = [100000] ∧
      (registerError 100000 none
        ⟨false, none, 4, [9000, 9200, 9400, 9600]⟩).2.isVisible = false) :=
  ⟨(registerError_threshold_and_reset
      ⟨false, none, 4, [9000, 9200, 9400, 9600]⟩ none 10000).1 (by decide),
   (registerError_threshold_and_reset
      ⟨false, none, 4, [9000, 9200, 9400, 9600]⟩ none 100000).2
     (by decide) (by decide) (by decide)⟩

/-- The banner-state invariant: `errorCount` equals the number of stored
error timestamps. -/
def bannerCountInvariant (s : BannerState) : Prop :=
  s.errorCount = s.errorTimestamps.length

/-- **C10.** `errorCount = errorTimestamps.length` holds initially and is
preserved by `show`, `hide` and `registerError`. -/
theorem bannerState_count_invariant :
    bannerCountInvariant initialBannerState ∧
    ∀ s, bannerCountInvariant s →
      (∀ now config, bannerCountInvariant (bannerShow now config s)) ∧
      bannerCountInvariant (bannerHide s) ∧
      (∀ now config, bannerCountInvariant (registerError now config s).2) := by
  refine ⟨rfl, fun s hs => ⟨fun now config => hs, rfl, fun now config => ?_⟩⟩
  unfold registerError
  dsimp only
  split
  · simp [bannerShow, bannerCountInvariant]
  · simp [bannerCountInvariant]

/-- Witness for C10 at a concrete state satisfying the invariant. -/
theorem bannerState_count_invariant_witness :
    bannerCountInvariant
      (registerError 50 none ⟨true, none, 2, [10, 20]⟩).2 :=
  ((bannerState_count_invariant).2 ⟨true, none, 2, [10, 20]⟩ rfl).2.2 50 none

/-! ## Role loading (`roles.service.ts`: `ensureRolesLoaded`,
`initializeRoles`, `loadRoleMappings`, `fetchRoleMappings`,
`getFallbackRoles`)

The loading pipeline is observable-based; we collapse it synchronously.  An
input value encodes the eventual emission of the injected role data provider
(`roleDataProvider.fetchRoleMappings()`): either the fetched roles or an
HTTP error.  `fetchRoleMappings` pipes that through `catchError`, which
replaces any error by `of(getFallbackRoles())`, so the resulting observable
always emits.  `initializeRoles` uses the session-storage cache when
non-empty, otherwise subscribes to the fetch; both its `next` and `error`
callbacks clear the `isLoadingMappings` flag.  `ensureRolesLoaded` subscribes
to `isLoadingMappings$` (a `BehaviorSubject`, which never errors) with
`filter(not loading)`/`first()` and resolves on the first `false`. -/

/-- Eventual emission of `roleDataProvider.fetchRoleMappings()`. -/
inductive FetchOutcome where
  | ok (roles : List InternalRole)
  | httpError (status : Nat)
deriving Repr, DecidableEq

/-- `RolesService.getFallbackRoles`: the minimal built-in role list used when
the API is unavailable. -/
def getFallbackRoles (adminRole : String) : List InternalRole :=
  [{ name := adminRole, displayName := adminRole,
     description := "Full system access", keycloakRoles := [] }]

/-- `RolesService.fetchRoleMappings` after `catchError`: the value the
subscription receives — the fetched roles, or the fallback roles when the
provider errored. -/
def fetchRoleMappings (adminRole : String) (outcome : FetchOutcome) :
    List InternalRole :=
  match outcome with
  | .ok roles => roles
  | .httpError _ => getFallbackRoles adminRole

/-- `RolesService.initializeRoles`/`loadRoleMappings`, collapsed: returns the
final value of the `isLoadingMappings` flag together with the roles that end
up cached.  A non-empty session-storage cache is used directly; otherwise the
fetch result is used; in every path the subscription callbacks set the
loading flag to `false`. -/
def initializeRoles (adminRole : String) (cachedRoles : Option (List InternalRole))
    (outcome : FetchOutcome) : Bool × List InternalRole :=
  match cachedRoles with
  | some roles =>
      if roles.length > 0 then (false, roles)
      else (false, fetchRoleMappings adminRole outcome)
  | none => (false, fetchRoleMappings adminRole outcome)

/-- Outcome of a JS promise, as observable from the caller. -/
inductive PromiseOutcome where
  | resolved
  | rejected
  | pending
deriving Repr, DecidableEq

/-- `RolesService.ensureRolesLoaded` (first call, `initialized = false`),
collapsed: it initializes the service and resolves once `isLoadingMappings$`
emits `false`; if the flag stayed `true` the promise would stay pending, and
it would reject only if the subject itself errored — which a
`BehaviorSubject` driven solely by `next` never does. -/
def ensureRolesLoaded (adminRole : String) (cachedRoles : Option (List InternalRole))
    (outcome : FetchOutcome) : PromiseOutcome :=
  if (initializeRoles adminRole cachedRoles outcome).1 = false then .resolved
  else .pending

/-- **C4.** `ensureRolesLoaded` resolves for every cache state and every
fetch outcome — cache hit, successful fetch, or failed fetch — and never
rejects; on fetch failure without a cache the error is swallowed, the
built-in fallback role is substituted, and the loading flag still ends up
cleared. -/
theorem ensureRolesLoaded_always_resolves (adminRole : String)
    (cachedRoles : Option (List InternalRole)) (outcome : FetchOutcome) :
    ensureRolesLoaded adminRole cachedRoles outcome = .resolved ∧
    (initializeRoles adminRole cachedRoles outcome).1 = false ∧
    ∀ status, initializeRoles adminRole none (.httpError status) =
      (false, getFallbackRoles adminRole) := by
  have hload : (initializeRoles adminRole cachedRoles outcome).1 = false := by
    unfold initializeRoles
    rcases cachedRoles with _ | roles
    · rfl
    · dsimp only
      split <;> rfl
  refine ⟨?_, hload, fun status => rfl⟩
  unfold ensureRolesLoaded
  rw [if_pos hload]

/-! ## JSON values

A model of the JSON data the library moves around: response payloads in the
envelope interceptor and serialized values in `BrowserStorageService`. -/

/-- JSON values.  A number is kept as the exact decimal
`mantissa × 10 ^ exponent` the text denotes (no float rounding). -/
inductive Json where
  | null
  | bool (b : Bool)
  | num (mantissa exponent : Int)
  | str (s : String)
  | arr (items : List Json)
  | obj (fields : List (String × Json))
deriving Repr

/-! ## apiInterceptor (`src/interceptors/api.meta.interceptor.ts`)

The interceptor inspects every `HttpResponse` body.  A body with both
`result` and `status` defined is the legacy envelope: the session id is
recorded and `result` is forwarded.  Otherwise a body with truthy `meta` and
defined `data` is the current envelope: metadata is recorded, a stage
mismatch navigates to `/status/500`, embedded errors become toasts, and
`data` is forwarded.  Requests to `/assets` or absolute URLs are skipped.
The embedding returns the interceptor's effects as a record. -/

/-- JS `String.prototype.startsWith`, embedded on character lists (the
built-in `String.startsWith` is kernel-opaque). -/
def strStartsWith (s pre : String) : Bool :=
  pre.toList.isPrefixOf s.toList

/-- `ApiMetadata` (`api.interface.ts`).  The interface declares
`session`/`stage`/`version`/`timestamp` as required, but the interceptor
checks `meta.stage &&` defensively, so the embedding keeps every field
optional as the wire may deliver it. -/
structure ApiMetadata where
  session : Option String
  stage : Option Stage
  version : Option String
  timestamp : Option String
  cacheValidThru : Option String
  errorCode : Option String
  errorMessage : Option String
deriving Repr, DecidableEq

/-- A value of the `errors` record: `Record<string, string | string[]>`. -/
inductive ApiErrorValue where
  | single (msg : String)
  | many (msgs : List String)
deriving Repr, DecidableEq

/-- A toast raised through `AppMessageService`. -/
inductive ToastCall where
  | showInfo (msg : String)
  | showError (msg : String)
deriving Repr, DecidableEq

/-- The relevant fields of a response body, each `none` when the key is
absent.  A legacy `message` value that is not a string raises no toast, like
an absent one, so `message` is embedded directly as an optional string. -/
structure ResponseBody where
  status : Option Json
  result : Option Json
  session : Option String
  message : Option String
  meta : Option ApiMetadata
  data : Option Json
  errors : Option (List (String × ApiErrorValue))
deriving Repr

/-- The body the caller receives: the original event, or the unwrapped
payload from `event.clone({ body: ... })`. -/
inductive ForwardedBody where
  | original (body : ResponseBody)
  | unwrapped (payload : Json)
deriving Repr

/-- The observable effects of one `apiInterceptor` response pass. -/
structure ApiInterceptResult where
  forwarded : ForwardedBody
  sessionIdSet : Option (Option String)
  metadataSet : Option ApiMetadata
  navigations : List String
  toasts : List ToastCall
deriving Repr

/-- `Object.entries(errors).forEach(...)`: one `showError` toast per
message, arrays flattened in order. -/
def errorsToToasts (errors : List (String × ApiErrorValue)) : List ToastCall :=
  errors.flatMap fun entry =>
    match entry.2 with
    | .many msgs => msgs.map ToastCall.showError
    | .single msg => [ToastCall.showError msg]

/-- `apiInterceptor` (api.meta.interceptor.ts) acting on a completed
`HttpResponse`; `suppressToasts` is the presence of the
`X-Suppress-Error-Toast` request header. -/
def apiInterceptor (clientStage : Stage) (suppressToasts : Bool)
    (url : String) (body : ResponseBody) : ApiInterceptResult :=
  if strStartsWith url "/assets" ∨ strStartsWith url "http://" ∨
      strStartsWith url "https://" then
    { forwarded := .original body, sessionIdSet := none, metadataSet := none,
      navigations := [], toasts := [] }
  else
    match body.result, body.status with
    | some result, some _ =>
        { forwarded := .unwrapped result,
          sessionIdSet := some body.session,
          metadataSet := none,
          navigations := [],
          toasts :=
            match body.message with
            | some msg =>
                -- `body.message && typeof body.message === 'string'`:
                -- the empty string is falsy.
                if msg ≠ "" ∧ ¬ suppressToasts then [.showInfo msg] else []
            | none => [] }
    | _, _ =>
        match body.meta, body.data with
        | some meta, some payload =>
            { forwarded := .unwrapped payload,
              sessionIdSet := none,
              metadataSet := some meta,
              navigations :=
                match meta.stage with
                | some stage => if clientStage ≠ stage then ["/status/500"] else []
                | none => [],
              toasts :=
                match body.errors with
                | some errors =>
                    if ¬ suppressToasts then errorsToToasts errors else []
                | none => [] }
        | _, _ =>
            { forwarded := .original body, sessionIdSet := none,
              metadataSet := none, navigations := [], toasts := [] }

/-- **C5.** For every non-skipped response in the `{meta, data}` shape whose
`meta.stage` is set and differs from the client's stage, the interceptor
navigates to the stage-mismatch error route `/status/500` and still forwards
the unwrapped `data` part to the caller. -/
theorem apiInterceptor_stage_mismatch_navigates_and_unwraps
    (clientStage : Stage) (suppressToasts : Bool) (url : String)
    (body : ResponseBody) (meta : ApiMetadata) (payload : Json) (stage : Stage)
    (hskip : ¬ (strStartsWith url "/assets" ∨ strStartsWith url "http://" ∨
      strStartsWith url "https://"))
    (hlegacy : body.result = none ∨ body.status = none)
    (hmeta : body.meta = some meta) (hdata : body.data = some payload)
    (hstage : meta.stage = some stage) (hne : clientStage ≠ stage) :
    (apiInterceptor clientStage suppressToasts url body).navigations =
      ["/status/500"] ∧
    (apiInterceptor clientStage suppressToasts url body).forwarded =
      .unwrapped payload := by
  obtain ⟨bstatus, bresult, bsession, bmessage, bmeta, bdata, berrors⟩ := body
  simp only at hmeta hdata hlegacy
  unfold apiInterceptor
  rw [if_neg hskip]
  subst hmeta
  subst hdata
  rcases bresult with _ | r
  · rcases bstatus with _ | st0 <;>
      · dsimp only
        rw [hstage]
        dsimp only
        rw [if_pos hne]
        exact ⟨rfl, rfl⟩
  · rcases bstatus with _ | st0
    · dsimp only
      rw [hstage]
      dsimp only
      rw [if_pos hne]
      exact ⟨rfl, rfl⟩
    · rcases hlegacy with h | h <;> exact absurd h (by simp)

/-- Witness for C5 at the spec's example: body
`{meta:{stage:PROD}, data:{x:1}}` against client stage `DEV`. -/
theorem apiInterceptor_stage_mismatch_witness :
    (apiInterceptor .DEV false "/api/demo"
        ⟨none, none, none, none,
         some ⟨none, some .PROD, none, none, none, none, none⟩,
         some (.obj [("x", .num 1 0)]), none⟩).navigations = ["/status/500"] ∧
    (apiInterceptor .DEV false "/api/demo"
        ⟨none, none, none, none,
         some ⟨none, some .PROD, none, none, none, none, none⟩,
         some (.obj [("x", .num 1 0)]), none⟩).forwarded =
      .unwrapped (.obj [("x", .num 1 0)]) :=
  apiInterceptor_stage_mismatch_navigates_and_unwraps .DEV false "/api/demo"
    ⟨none, none, none, none,
     some ⟨none, some .PROD, none, none, none, none, none⟩,
     some (.obj [("x", .num 1 0)]), none⟩
    ⟨none, some .PROD, none, none, none, none, none⟩
    (.obj [("x", .num 1 0)]) .PROD
    (by decide) (Or.inl rfl) rfl rfl rfl (by decide)

/-- **C6.** For every non-skipped response with both `status` and `result`
defined (the legacy envelope), the interceptor records the envelope's
`session` field as the current session id and forwards the `result` field to
the caller. -/
theorem apiInterceptor_legacy_envelope_session_and_result
    (clientStage : Stage) (suppressToasts : Bool) (url : String)
    (body : ResponseBody) (statusVal result : Json)
    (hskip : ¬ (strStartsWith url "/assets" ∨ strStartsWith url "http://" ∨
      strStartsWith url "https://"))
    (hstatus : body.status = some statusVal) (hresult : body.result = some result) :
    (apiInterceptor clientStage suppressToasts url body).sessionIdSet =
      some body.session ∧
    (apiInterceptor clientStage suppressToasts url body).forwarded =
      .unwrapped result := by
  unfold apiInterceptor
  rw [if_neg hskip, hresult, hstatus]
  exact ⟨rfl, rfl⟩

/-- Witness for C6 at the spec's example: body
`{status:1, result:{y:2}, session:"abc"}`. -/
theorem apiInterceptor_legacy_envelope_witness :
    (apiInterceptor .DEV false "/api/demo"
        ⟨some (.num 1 0), some (.obj [("y", .num 2 0)]), some "abc", none,
         none, none, none⟩).sessionIdSet = some (some "abc") ∧
    (apiInterceptor .DEV false "/api/demo"
        ⟨some (.num 1 0), some (.obj [("y", .num 2 0)]), some "abc", none,
         none, none, none⟩).forwarded = .unwrapped (.obj [("y", .num 2 0)]) :=
  apiInterceptor_legacy_envelope_session_and_result .DEV false "/api/demo"
    ⟨some (.num 1 0), some (.obj [("y", .num 2 0)]), some "abc", none,
     none, none, none⟩
    (.num 1 0) (.obj [("y", .num 2 0)]) (by decide) rfl rfl

/-! ## PreferencesService (`preferences.interface`, `PreferencesService`)

Preferences are persisted under the local-storage key `user-preferences`
next to a version marker under `preferences-version`.  The service
constructor loads the stored value, then compares the stored version with
`PREFERENCES_VERSION`; on mismatch it removes the stored preferences, writes
the current version and saves (and emits) the defaults.  The embedding keeps
just the two keys of local storage; a stored snapshot is a full
`Preferences` record, as written by `savePreferences` (which always persists
the complete object). -/

/-- `Preferences` (preferences.interface). -/
structure Preferences where
  language : String
  theme : String
  darkMode : Bool
  scale : Nat
  menuLayout : String
  autoDarkMode : Option Bool
  preset : String
  primaryColor : String
  surface : Option String
  fontSize : Option String
  testRole : Option String
deriving Repr, DecidableEq

/-- `defaultPreferences` (preferences.interface). -/
def defaultPreferences : Preferences :=
  { language := "", theme := "aura-light-orange", darkMode := false,
    scale := 14, menuLayout := "horizontal", autoDarkMode := some false,
    preset := "Aura", primaryColor := "orange", surface := some "slate",
    fontSize := some "1rem", testRole := none }

/-- `PREFERENCES_VERSION` (preferences.interface). -/
def PREFERENCES_VERSION : Nat := 2

/-- The two local-storage keys the service touches: `user-preferences` and
`preferences-version`. -/
structure PrefLocalStore where
  prefs : Option Preferences
  version : Option String
deriving Repr, DecidableEq

/-- `PreferencesService.loadPreferences`: the stored snapshot merged over
the defaults (`{...defaultPreferences, ...stored}`; a full snapshot
overrides every key), or the defaults when nothing is stored. -/
def loadPreferences (store : PrefLocalStore) : Preferences :=
  match store.prefs with
  | some stored => stored
  | none => defaultPreferences

/-- `PreferencesService` constructor: load the initial value, then handle
version migration.  Returns the final state of the two storage keys together
with the current value of the preferences subject. -/
def preferencesServiceInit (store : PrefLocalStore) :
    PrefLocalStore × Preferences :=
  let initialPreferences := loadPreferences store
  let storedVersion := store.version
  let currentVersion := toString PREFERENCES_VERSION
  if storedVersion ≠ some currentVersion then
    -- removeLocal(LOCAL_STORAGE_KEY); setLocal(VERSION_KEY, currentVersion);
    -- savePreferences(defaultPreferences)
    ({ prefs := some defaultPreferences, version := some currentVersion },
     defaultPreferences)
  else if store.prefs = none then
    -- no preferences yet: savePreferences(defaultPreferences)
    ({ store with prefs := some defaultPreferences }, defaultPreferences)
  else
    -- merge new default keys into the stored snapshot; for a full snapshot
    -- the merge is the snapshot itself, so nothing is re-saved
    (store, initialPreferences)

/-- **C7.** Whenever the stored preferences version differs from
`PREFERENCES_VERSION` (for example after the constant is bumped), the next
service start discards the stored preferences wholesale: the preferences key
is rewritten with the defaults, the version key is set to the current
version, and the defaults become the current preferences value. -/
theorem preferencesServiceInit_version_mismatch_resets
    (store : PrefLocalStore)
    (hver : store.version ≠ some (toString PREFERENCES_VERSION)) :
    preferencesServiceInit store =
      ({ prefs := some defaultPreferences,
         version := some (toString PREFERENCES_VERSION) },
       defaultPreferences) := by
  unfold preferencesServiceInit
  rw [if_pos hver]

/-- Witness for C7: stored version "1" with customized stored preferences is
replaced wholesale by the defaults and version "2". -/
theorem preferencesServiceInit_version_mismatch_witness :
    preferencesServiceInit
        ⟨some { defaultPreferences with darkMode := true, theme := "aura-dark-orange" },
         some "1"⟩ =
      ({ prefs := some defaultPreferences,
         version := some (toString PREFERENCES_VERSION) },
       defaultPreferences) :=
  preferencesServiceInit_version_mismatch_resets
    ⟨some { defaultPreferences with darkMode := true, theme := "aura-dark-orange" },
     some "1"⟩ (by decide)

/-! ## errorInterceptor (`src/interceptors/api.url.interceptor.ts`)

The error interceptor catches a timeout or an `HttpErrorResponse`.  Errors
raised by the status pages themselves are rethrown untouched; 5xx and
timeouts feed the banner escalation; other 4xx raise a toast when no banner
is active; a 403 additionally navigates to `/status/403`.  Every branch
rethrows, so only the side effects are embedded. -/

/-- JS `String.prototype.includes` on character lists: `sub` occurs as a
contiguous substring. -/
def charListIncludes (sub : List Char) : List Char → Bool
  | [] => sub.isEmpty
  | c :: cs => sub.isPrefixOf (c :: cs) || charListIncludes sub cs

/-- JS `url.includes(sub)`. -/
def strIncludes (s sub : String) : Bool :=
  charListIncludes sub.toList s.toList

/-- The failure the interceptor catches: an rxjs `TimeoutError` or an
`HttpErrorResponse` with its status and (possibly null) URL. -/
inductive HttpFailure where
  | timeoutFailure
  | httpResponseFailure (status : Nat) (url : Option String)
deriving Repr, DecidableEq

/-- The sticky warn/error toasts the interceptor can raise. -/
inductive ErrToast where
  | timeoutToast
  | serverErrorToast
  | clientErrorToast
deriving Repr, DecidableEq

/-- Side effects of one `errorInterceptor` catch. -/
structure ErrorInterceptorResult where
  navigations : List String
  toasts : List ErrToast
  bannerState : BannerState
deriving Repr, DecidableEq

/-- `errorInterceptor`'s `catchError` handler (api.url.interceptor.ts);
`now` stands for `Date.now()` inside the banner component, `s` for the
registered banner component's state, `suppressToasts` for the
`X-Suppress-Error-Toast` request header. -/
def errorInterceptorOnError (suppressToasts : Bool) (now : Int)
    (s : BannerState) (failure : HttpFailure) : ErrorInterceptorResult :=
  match failure with
  | .timeoutFailure =>
      let res := registerError now none s
      { navigations := [],
        toasts := if ¬ res.1 ∧ ¬ suppressToasts then [.timeoutToast] else [],
        bannerState := res.2 }
  | .httpResponseFailure status url =>
      -- errors thrown by the status pages themselves are rethrown untouched
      let fromStatusPage : Bool :=
        match url with
        | some u => strIncludes u "/status/403" || strIncludes u "/status/500"
        | none => false
      if fromStatusPage then
        { navigations := [], toasts := [], bannerState := s }
      else if status ≥ 500 then
        let res := registerError now
          (some { title := "core.backendErrorBanner.title",
                  message := "core.backendErrorBanner.message",
                  icon := none, customClasses := none, autoHide := none,
                  autoHideTimeout := none, closable := none, id := none,
                  errorThreshold := none, timeWindow := none }) s
        { navigations := [],
          toasts := if ¬ res.1 ∧ ¬ suppressToasts then [.serverErrorToast] else [],
          bannerState := res.2 }
      else
        -- `error.status && error.status >= 400` (≥ 400 implies truthiness)
        { navigations := if status = 403 then ["/status/403"] else [],
          toasts :=
            if status ≥ 400 ∧ ¬ s.isVisible ∧ ¬ suppressToasts then
              [.clientErrorToast]
            else [],
          bannerState := s }

/-- **C8 counterexample.** A request failing with 403 whose error URL itself
contains `/status/403` is rethrown without any navigation: the claimed
redirect for "every" 403 does not happen here. -/
theorem errorInterceptor_403_from_status_page_does_not_navigate :
    (errorInterceptorOnError false 0 initialBannerState
        (.httpResponseFailure 403 (some "https://host/status/403"))).navigations =
      [] := by
  rfl

/-- **C8 (amended).** Every request failing with status 403 whose error URL
does not contain `/status/403` or `/status/500` (in particular a null URL)
triggers a navigation to the dedicated access-denied route `/status/403`. -/
theorem errorInterceptor_403_navigates_to_access_denied
    (suppressToasts : Bool) (now : Int) (s : BannerState) (url : Option String)
    (hurl : ∀ u, url = some u →
      strIncludes u "/status/403" = false ∧ strIncludes u "/status/500" = false) :
    (errorInterceptorOnError suppressToasts now s
        (.httpResponseFailure 403 url)).navigations = ["/status/403"] := by
  rcases url with _ | u
  · simp [errorInterceptorOnError]
  · obtain ⟨h1, h2⟩ := hurl u rfl
    simp [errorInterceptorOnError, h1, h2]

/-- Witness for the amended C8 at a 403 with an ordinary API URL. -/
theorem errorInterceptor_403_navigates_witness :
    (errorInterceptorOnError false 0 initialBannerState
        (.httpResponseFailure 403 (some "/api/orders"))).navigations =
      ["/status/403"] :=
  errorInterceptor_403_navigates_to_access_denied false 0 initialBannerState
    (some "/api/orders") (by intro u h; cases h; exact ⟨rfl, rfl⟩)

/-! ## JSON serialization (`JSON.stringify` / `JSON.parse`) and
BrowserStorageService (`storage.service`)

`BrowserStorageService.setItem` stores a string value as-is and any other
value JSON-serialized; `getItem` reads the raw string back and tries
`JSON.parse`, falling back to the raw string.  `jsonParse` embeds
`JSON.parse` over the RFC 8259 grammar: insignificant whitespace, numbers
with optional sign, fraction and exponent (and no leading zeros), and
string escapes including `\uXXXX` with surrogate-pair combination (a lone
surrogate, which Lean strings cannot represent, is the model's boundary
and is rejected).  Numbers are kept exact as mantissa and decimal
exponent, so e.g. `"1.5"` parses to `1.5`, not to a string.
`jsonStringify` embeds `JSON.stringify`: it renders numbers in the
decimal/exponent form, escapes the quote, the backslash, the short control
escapes and the remaining control characters as `\u00XX`, and emits the
separator-free array/object form.  The browser `Storage` object is an
association list with newest-first lookup; its operations never throw in
the embedding, so `setItem` always succeeds. -/

/-- JSON insignificant whitespace (RFC 8259: space, tab, LF, CR). -/
def isJsonWs (c : Char) : Bool :=
  c = ' ' ∨ c = '\x09' ∨ c = '\x0a' ∨ c = '\x0d'

def skipWs : List Char → List Char
  | [] => []
  | c :: cs => if isJsonWs c then skipWs cs else c :: cs

def digitChar (d : Nat) : Char := Char.ofNat (48 + d)

def digitVal (c : Char) : Nat := c.toNat - 48

def natDigitsAux : Nat → Nat → List Char
  | 0, n => [digitChar n]
  | fuel + 1, n =>
      if n < 10 then [digitChar n]
      else natDigitsAux fuel (n / 10) ++ [digitChar (n % 10)]

def natDigits (n : Nat) : List Char := natDigitsAux n n

def digitsToNat (ds : List Char) : Nat :=
  ds.foldl (fun acc c => acc * 10 + digitVal c) 0

/-- The exponent part after `e`/`E`: optional sign, then digits. -/
def parseExponentPart : List Char → Option (Int × List Char)
  | [] => none
  | c :: r =>
    let signed : Int × List Char :=
      if c = '+' then (1, r) else if c = '-' then (-1, r) else (1, c :: r)
    let eds := signed.2.takeWhile (fun c => c.isDigit)
    let r2 := signed.2.dropWhile (fun c => c.isDigit)
    if eds.isEmpty then none else some (signed.1 * (digitsToNat eds : Int), r2)

/-- After the digits `ds` (integer and fraction concatenated, `fracLen`
fraction digits): an optional exponent. -/
def parseNumberExp (ds : List Char) (fracLen : Int) :
    List Char → Option ((Nat × Int) × List Char)
  | [] => some ((digitsToNat ds, -fracLen), [])
  | c :: r =>
    if c = 'e' ∨ c = 'E' then
      match parseExponentPart r with
      | some (ex, r2) => some ((digitsToNat ds, ex - fracLen), r2)
      | none => none
    else some ((digitsToNat ds, -fracLen), c :: r)

/-- After the integer digits: an optional fraction, then the exponent. -/
def parseNumberFrac (intDs : List Char) :
    List Char → Option ((Nat × Int) × List Char)
  | [] => parseNumberExp intDs 0 []
  | c :: r =>
    if c = '.' then
      let fds := r.takeWhile (fun c => c.isDigit)
      let r2 := r.dropWhile (fun c => c.isDigit)
      if fds.isEmpty then none
      else parseNumberExp (intDs ++ fds) (fds.length : Int) r2
    else parseNumberExp intDs 0 (c :: r)

/-- A JSON number after an optional leading minus: integer part without
leading zeros (`JSON.parse` throws on `01`), optional fraction, optional
exponent.  Returns the non-negative mantissa and the decimal exponent. -/
def parseNumber (cs : List Char) : Option ((Nat × Int) × List Char) :=
  let intDs := cs.takeWhile (fun c => c.isDigit)
  let cs1 := cs.dropWhile (fun c => c.isDigit)
  if intDs.isEmpty then none
  else if 1 < intDs.length ∧ intDs.headI = '0' then none
  else parseNumberFrac intDs cs1

def hexVal (c : Char) : Option Nat :=
  if c.isDigit then some (c.toNat - 48)
  else if 'a' ≤ c ∧ c ≤ 'f' then some (c.toNat - 97 + 10)
  else if 'A' ≤ c ∧ c ≤ 'F' then some (c.toNat - 65 + 10)
  else none

def hex4 (a b c d : Char) : Option Nat :=
  match hexVal a, hexVal b, hexVal c, hexVal d with
  | some va, some vb, some vc, some vd => some (((va * 16 + vb) * 16 + vc) * 16 + vd)
  | _, _, _, _ => none

/-- The single-character escapes of the JSON grammar. -/
def simpleUnescape : Char → Option Char
  | '"' => some '"'
  | '\\' => some '\\'
  | '/' => some '/'
  | 'b' => some '\x08'
  | 'f' => some '\x0c'
  | 'n' => some '\x0a'
  | 'r' => some '\x0d'
  | 't' => some '\x09'
  | _ => none

/-- One escape sequence after the backslash.  `\\uXXXX` escapes yield the
encoded character, a surrogate pair combining into one scalar (a lone
surrogate, which Lean strings cannot hold, is the model's boundary and is
rejected); the single-character escapes are looked up; anything else is a
malformed escape. -/
def parseEscape : List Char → Option (Char × List Char)
  | 'u' :: a :: b :: c :: d :: cs2 =>
      match hex4 a b c d with
      | some n =>
          if n < 0xd800 ∨ 0xe000 ≤ n then some (Char.ofNat n, cs2)
          else if n < 0xdc00 then
            match cs2 with
            | '\\' :: 'u' :: a2 :: b2 :: c3 :: d2 :: cs3 =>
                match hex4 a2 b2 c3 d2 with
                | some m =>
                    if 0xdc00 ≤ m ∧ m < 0xe000 then
                      some (Char.ofNat (0x10000 + (n - 0xd800) * 0x400 +
                        (m - 0xdc00)), cs3)
                    else none
                | none => none
            | _ => none
          else none
      | none => none
  | e :: cs2 =>
      match simpleUnescape e with
      | some ch => some (ch, cs2)
      | none => none
  | [] => none

/-- Body of a JSON string after the opening quote (fuel-bounded; each step
consumes at least one character, so `length` fuel suffices).  Unescaped
control characters are rejected, as `JSON.parse` does. -/
def parseStringChars : Nat → List Char → Option (List Char × List Char)
  | 0, _ => none
  | _ + 1, [] => none
  | fuel + 1, c :: cs =>
    if c = '"' then some ([], cs)
    else if c = '\\' then
      match parseEscape cs with
      | some (ch, cs2) =>
          match parseStringChars fuel cs2 with
          | some (s, r) => some (ch :: s, r)
          | none => none
      | none => none
    else if c.toNat < 32 then none
    else
      match parseStringChars fuel cs with
      | some (s, r) => some (c :: s, r)
      | none => none

mutual

def parseValue : Nat → List Char → Option (Json × List Char)
  | 0, _ => none
  | fuel + 1, cs0 =>
    match skipWs cs0 with
    | [] => none
    | c :: cs =>
      if c = 'n' then
        match cs with
        | 'u' :: 'l' :: 'l' :: rest => some (.null, rest)
        | _ => none
      else if c = 't' then
        match cs with
        | 'r' :: 'u' :: 'e' :: rest => some (.bool true, rest)
        | _ => none
      else if c = 'f' then
        match cs with
        | 'a' :: 'l' :: 's' :: 'e' :: rest => some (.bool false, rest)
        | _ => none
      else if c = '"' then
        match parseStringChars cs.length cs with
        | some (s, r) => some (.str (String.mk s), r)
        | none => none
      else if c = '[' then
        match parseArrayItems fuel cs with
        | some (items, r) => some (.arr items, r)
        | none => none
      else if c = '\x7b' then
        match parseObjFields fuel cs with
        | some (fields, r) => some (.obj fields, r)
        | none => none
      else if c = '-' then
        match parseNumber cs with
        | some ((m, ex), r) => some (.num (-(m : Int)) ex, r)
        | none => none
      else
        match parseNumber (c :: cs) with
        | some ((m, ex), r) => some (.num (m : Int) ex, r)
        | none => none

def parseArrayItems : Nat → List Char → Option (List Json × List Char)
  | 0, _ => none
  | fuel + 1, cs0 =>
    match skipWs cs0 with
    | [] => none
    | c :: cs =>
      if c = ']' then some ([], cs)
      else
        match parseValue fuel (c :: cs) with
        | some (j, r) =>
          match parseArrayTail fuel r with
          | some (items, r2) => some (j :: items, r2)
          | none => none
        | none => none

def parseArrayTail : Nat → List Char → Option (List Json × List Char)
  | 0, _ => none
  | fuel + 1, cs0 =>
    match skipWs cs0 with
    | [] => none
    | c :: cs =>
      if c = ']' then some ([], cs)
      else if c = ',' then
        match parseValue fuel cs with
        | some (j, r) =>
          match parseArrayTail fuel r with
          | some (items, r2) => some (j :: items, r2)
          | none => none
        | none => none
      else none

def parseObjField : Nat → List Char → Option ((String × Json) × List Char)
  | 0, _ => none
  | fuel + 1, cs0 =>
    match skipWs cs0 with
    | [] => none
    | c :: cs =>
      if c = '"' then
        match parseStringChars cs.length cs with
        | some (k, r) =>
          match skipWs r with
          | ':' :: r2 =>
            match parseValue fuel r2 with
            | some (v, r3) => some ((String.mk k, v), r3)
            | none => none
          | _ => none
        | none => none
      else none

def parseObjFields : Nat → List Char → Option (List (String × Json) × List Char)
  | 0, _ => none
  | fuel + 1, cs0 =>
    match skipWs cs0 with
    | [] => none
    | c :: cs =>
      if c = '\x7d' then some ([], cs)
      else
        match parseObjField fuel (c :: cs) with
        | some (f, r) =>
          match parseObjTail fuel r with
          | some (fields, r2) => some (f :: fields, r2)
          | none => none
        | none => none

def parseObjTail : Nat → List Char → Option (List (String × Json) × List Char)
  | 0, _ => none
  | fuel + 1, cs0 =>
    match skipWs cs0 with
    | [] => none
    | c :: cs =>
      if c = '\x7d' then some ([], cs)
      else if c = ',' then
        match parseObjField fuel cs with
        | some (f, r) =>
          match parseObjTail fuel r with
          | some (fields, r2) => some (f :: fields, r2)
          | none => none
        | none => none
      else none

end

/-- `JSON.parse`: parse one value, allowing trailing whitespace only. -/
def jsonParse (s : String) : Option Json :=
  match parseValue (s.toList.length + 1) s.toList with
  | some (j, rest) => if skipWs rest = [] then some j else none
  | none => none

/-- `jsonParse` fidelity on notable `JSON.parse` inputs: leading
whitespace and fractions parse to the number they denote, leading zeros
and trailing garbage are rejected, and escapes decode to the escaped
character (a `\n` escape is a newline, `\u0041` is `A`, and a
surrogate pair is one scalar). -/
theorem jsonParse_fidelity :
    jsonParse "true" = some (.bool true) ∧
    jsonParse " 1" = some (.num 1 0) ∧
    jsonParse "1.5" = some (.num 15 (-1)) ∧
    jsonParse "01" = none ∧
    jsonParse "-2.50" = some (.num (-250) (-2)) ∧
    jsonParse "1e3" = some (.num 1 3) ∧
    jsonParse "2.5e-2" = some (.num 25 (-3)) ∧
    jsonParse "\"a\\nb\"" = some (.str "a\nb") ∧
    jsonParse "\"a\\qb\"" = none ∧
    jsonParse "\"\\u0041\"" = some (.str "A") ∧
    jsonParse "\"\\ud83d\\ude00\"" = some (.str "😀") ∧
    jsonParse " [ 1 , true ] " = some (.arr [.num 1 0, .bool true]) ∧
    jsonParse "\x7b \"x\" : 1 \x7d" = some (.obj [("x", .num 1 0)]) ∧
    jsonParse "1." = none ∧
    jsonParse "hello" = none ∧
    jsonParse "1 2" = none :=
  ⟨rfl, rfl, rfl, rfl, rfl, rfl, rfl, rfl, rfl, rfl, rfl, rfl, rfl, rfl, rfl, rfl⟩

def hexDigit (d : Nat) : Char :=
  if d < 10 then digitChar d else Char.ofNat (97 + d - 10)

/-- `JSON.stringify` string escaping: quote, backslash, the short control
escapes, `\u00XX` for the remaining control characters, everything else
verbatim (`/` is not escaped). -/
def escapeChar (c : Char) : List Char :=
  if c = '"' then ['\\', '"']
  else if c = '\\' then ['\\', '\\']
  else if c = '\x08' then ['\\', 'b']
  else if c = '\x09' then ['\\', 't']
  else if c = '\x0a' then ['\\', 'n']
  else if c = '\x0c' then ['\\', 'f']
  else if c = '\x0d' then ['\\', 'r']
  else if c.toNat < 32 then
    '\\' :: 'u' :: '0' :: '0' :: hexDigit (c.toNat / 16) :: [hexDigit (c.toNat % 16)]
  else [c]

def escapeChars : List Char → List Char
  | [] => []
  | c :: cs => escapeChar c ++ escapeChars cs

/-- Decimal text of the non-negative mantissa `n` scaled by `10 ^ e`:
plain digits for `e = 0`, explicit exponent for `e > 0`, and a decimal
point (zero-padded when needed) for `e < 0`. -/
def stringifyMantissa (n : Nat) (e : Int) : List Char :=
  if e = 0 then natDigits n
  else if 0 < e then natDigits n ++ 'e' :: natDigits e.toNat
  else
    let ds := natDigits n
    let k := e.natAbs
    if k < ds.length then ds.take (ds.length - k) ++ '.' :: ds.drop (ds.length - k)
    else '0' :: '.' :: (List.replicate (k - ds.length) '0' ++ ds)

def stringifyNumber (m e : Int) : List Char :=
  if m < 0 then '-' :: stringifyMantissa m.natAbs e
  else stringifyMantissa m.natAbs e

mutual

def stringifyValue : Json → List Char
  | .null => 'n' :: ['u', 'l', 'l']
  | .bool true => 't' :: ['r', 'u', 'e']
  | .bool false => 'f' :: ['a', 'l', 's', 'e']
  | .num m e => stringifyNumber m e
  | .str s => '"' :: (escapeChars s.toList ++ ['"'])
  | .arr items => '[' :: (stringifyItems items ++ [']'])
  | .obj fields => '\x7b' :: (stringifyFields fields ++ ['\x7d'])

def stringifyItems : List Json → List Char
  | [] => []
  | j :: tail => stringifyValue j ++ stringifyItemsTail tail

def stringifyItemsTail : List Json → List Char
  | [] => []
  | j :: tail => ',' :: (stringifyValue j ++ stringifyItemsTail tail)

def stringifyField : String × Json → List Char
  | (k, v) => '"' :: (escapeChars k.toList ++ '"' :: ':' :: stringifyValue v)

def stringifyFields : List (String × Json) → List Char
  | [] => []
  | f :: tail => stringifyField f ++ stringifyFieldsTail tail

def stringifyFieldsTail : List (String × Json) → List Char
  | [] => []
  | f :: tail => ',' :: (stringifyField f ++ stringifyFieldsTail tail)

end

def jsonStringify (j : Json) : String := String.mk (stringifyValue j)

/-- `jsonStringify` fidelity: numbers render as `JSON.stringify` renders
the corresponding doubles, control characters are escaped, and parsing
inverts stringification on sample values. -/
theorem jsonStringify_fidelity :
    jsonStringify (.num 15 (-1)) = "1.5" ∧
    jsonStringify (.num (-250) (-2)) = "-2.50" ∧
    jsonStringify (.num 5 (-3)) = "0.005" ∧
    jsonStringify (.num 3 2) = "3e2" ∧
    jsonStringify (.num 42 0) = "42" ∧
    jsonStringify (.str "a\nb\x01") = "\"a\\nb\\u0001\"" ∧
    jsonParse (jsonStringify (.num 15 (-1))) = some (.num 15 (-1)) ∧
    jsonParse (jsonStringify (.num (-250) (-2))) = some (.num (-250) (-2)) ∧
    jsonParse (jsonStringify (.num 5 (-3))) = some (.num 5 (-3)) ∧
    jsonParse (jsonStringify (.num 3 2)) = some (.num 3 2) ∧
    jsonParse (jsonStringify (.str "a\nb\x01\"q")) = some (.str "a\nb\x01\"q") ∧
    jsonParse (jsonStringify (.obj [("x", .num 1 0)])) = some (.obj [("x", .num 1 0)]) :=
  ⟨rfl, rfl, rfl, rfl, rfl, rfl, rfl, rfl, rfl, rfl, rfl, rfl⟩

theorem digitChar_isDigit (d : Nat) (h : d < 10) : (digitChar d).isDigit = true := by
  interval_cases d <;> decide

theorem digitVal_digitChar (d : Nat) (h : d < 10) : digitVal (digitChar d) = d := by
  interval_cases d <;> decide

theorem digitChar_ne_zero (d : Nat) (h1 : 1 ≤ d) (h2 : d < 10) : digitChar d ≠ '0' := by
  interval_cases d <;> decide

theorem digitsToNat_append_singleton (xs : List Char) (c : Char) :
    digitsToNat (xs ++ [c]) = digitsToNat xs * 10 + digitVal c := by
  simp [digitsToNat, List.foldl_append]

theorem natDigitsAux_spec (fuel : Nat) : ∀ n, n ≤ fuel ∨ n < 10 →
    natDigitsAux fuel n ≠ [] ∧ (∀ c ∈ natDigitsAux fuel n, c.isDigit = true) ∧
    digitsToNat (natDigitsAux fuel n) = n := by
  induction fuel with
  | zero =>
    intro n h
    have h10 : n < 10 := by omega
    refine ⟨by simp [natDigitsAux], ?_, ?_⟩
    · intro c hc
      simp [natDigitsAux] at hc
      subst hc
      exact digitChar_isDigit n h10
    · simp [natDigitsAux, digitsToNat, digitVal_digitChar n h10]
  | succ fuel ih =>
    intro n h
    by_cases h10 : n < 10
    · refine ⟨by simp [natDigitsAux, h10], ?_, ?_⟩
      · intro c hc
        simp [natDigitsAux, h10] at hc
        subst hc
        exact digitChar_isDigit n h10
      · simp [natDigitsAux, h10, digitsToNat, digitVal_digitChar n h10]
    · have hdivlt : n / 10 < n := Nat.div_lt_self (by omega) (by omega)
      have hrec : n / 10 ≤ fuel ∨ n / 10 < 10 := by omega
      obtain ⟨hne, hdig, hval⟩ := ih (n / 10) hrec
      have heq : natDigitsAux (fuel + 1) n =
          natDigitsAux fuel (n / 10) ++ [digitChar (n % 10)] := by
        simp [natDigitsAux, h10]
      refine ⟨by simp [heq], ?_, ?_⟩
      · intro c hc
        rw [heq, List.mem_append] at hc
        rcases hc with hc | hc
        · exact hdig c hc
        · simp at hc
          subst hc
          exact digitChar_isDigit _ (Nat.mod_lt _ (by omega))
      · rw [heq, digitsToNat_append_singleton, hval,
            digitVal_digitChar _ (Nat.mod_lt _ (by omega))]
        omega

theorem natDigits_spec (n : Nat) :
    natDigits n ≠ [] ∧ (∀ c ∈ natDigits n, c.isDigit = true) ∧
    digitsToNat (natDigits n) = n :=
  natDigitsAux_spec n n (Or.inl le_rfl)

theorem natDigits_small (n : Nat) (h : n < 10) : natDigits n = [digitChar n] := by
  rcases n with _ | m
  · rfl
  · simp [natDigits, natDigitsAux, h]

theorem natDigitsAux_head_ne_zero (fuel : Nat) : ∀ n, 1 ≤ n → n ≤ fuel ∨ n < 10 →
    ∀ c cs, natDigitsAux fuel n = c :: cs → c ≠ '0' := by
  induction fuel with
  | zero =>
    intro n h1 h c cs heq
    have h10 : n < 10 := by omega
    simp [natDigitsAux] at heq
    obtain ⟨rfl, -⟩ := heq
    exact digitChar_ne_zero n h1 h10
  | succ fuel ih =>
    intro n h1 h c cs heq
    by_cases h10 : n < 10
    · simp [natDigitsAux, h10] at heq
      obtain ⟨rfl, -⟩ := heq
      exact digitChar_ne_zero n h1 h10
    · rw [natDigitsAux, if_neg h10] at heq
      obtain ⟨hne, -, -⟩ := natDigitsAux_spec fuel (n / 10) (by omega)
      rcases hrec : natDigitsAux fuel (n / 10) with _ | ⟨d, ds⟩
      · exact absurd hrec hne
      · rw [hrec] at heq
        simp at heq
        obtain ⟨rfl, -⟩ := heq
        exact ih (n / 10) (by omega) (by omega) d ds hrec

theorem natDigits_head_ne_zero (n : Nat) (h1 : 1 ≤ n) :
    ∀ c cs, natDigits n = c :: cs → c ≠ '0' :=
  natDigitsAux_head_ne_zero n n h1 (Or.inl le_rfl)

theorem natDigits_no_leading_zero (n : Nat) :
    ¬ (1 < (natDigits n).length ∧ (natDigits n).headI = '0') := by
  rintro ⟨hlen, hhead⟩
  by_cases h10 : n < 10
  · rw [natDigits_small n h10] at hlen
    simp at hlen
  · rcases hd : natDigits n with _ | ⟨c, cs⟩
    · exact absurd hd (natDigits_spec n).1
    · rw [hd] at hhead
      simp [List.headI] at hhead
      exact natDigits_head_ne_zero n (by omega) c cs hd hhead

theorem digitsToNat_cons_zero (ds : List Char) :
    digitsToNat ('0' :: ds) = digitsToNat ds := by
  simp [digitsToNat, List.foldl_cons, digitVal]

theorem digitsToNat_replicate_zero (z : Nat) (ds : List Char) :
    digitsToNat (List.replicate z '0' ++ ds) = digitsToNat ds := by
  induction z with
  | zero => simp
  | succ z ih => simpa [List.replicate_succ, digitsToNat_cons_zero] using ih

/-- The head of `rest`, if any, fails `p`. -/
def headFails (p : Char → Bool) (rest : List Char) : Prop :=
  ∀ c, rest.head? = some c → p c = false

/-- What may legally follow a rendered number: not a digit and none of the
number-continuation characters. -/
def numBoundary (rest : List Char) : Prop :=
  ∀ c, rest.head? = some c →
    c.isDigit = false ∧ c ≠ '.' ∧ c ≠ 'e' ∧ c ≠ 'E'

theorem takeWhile_append_of_all (p : Char → Bool) (xs ys : List Char)
    (hx : ∀ c ∈ xs, p c = true) (hy : headFails p ys) :
    (xs ++ ys).takeWhile p = xs ∧ (xs ++ ys).dropWhile p = ys := by
  induction xs with
  | nil =>
    rcases ys with _ | ⟨c, t⟩
    · simp
    · have := hy c rfl
      simp [List.takeWhile_cons, List.dropWhile_cons, this]
  | cons x xs ih =>
    have hx1 := hx x (by simp)
    have ih2 := ih (fun c hc => hx c (by simp [hc]))
    simp [List.takeWhile_cons, List.dropWhile_cons, hx1, ih2.1, ih2.2]

theorem isJsonWs_false_of_isDigit (c : Char) (h : c.isDigit = true) :
    isJsonWs c = false := by
  unfold isJsonWs
  simp only [decide_eq_false_iff_not]
  rintro (rfl | rfl | rfl | rfl) <;> exact absurd h (by decide)

theorem skipWs_cons_not_ws (c : Char) (cs : List Char) (h : isJsonWs c = false) :
    skipWs (c :: cs) = c :: cs := by
  rw [skipWs, if_neg (by simp [h])]

theorem parseNumberExp_boundary (ds : List Char) (fracLen : Int) (rest : List Char)
    (hrest : numBoundary rest) :
    parseNumberExp ds fracLen rest = some ((digitsToNat ds, -fracLen), rest) := by
  rcases rest with _ | ⟨c, r⟩
  · rfl
  · obtain ⟨-, -, he, hE⟩ := hrest c rfl
    rw [parseNumberExp, if_neg (by rintro (rfl | rfl) <;> simp_all)]

theorem parseExponentPart_digits (v : Nat) (rest : List Char)
    (hrest : headFails (fun c => c.isDigit) rest) :
    parseExponentPart (natDigits v ++ rest) = some ((v : Int), rest) := by
  obtain ⟨hne, hdig, hval⟩ := natDigits_spec v
  obtain ⟨htake, hdrop⟩ := takeWhile_append_of_all _ (natDigits v) rest hdig hrest
  rcases hd : natDigits v with _ | ⟨d, ds⟩
  · exact absurd hd hne
  · have hdd : d.isDigit = true := hdig d (by rw [hd]; simp)
    have hplus : d ≠ '+' := by rintro rfl; exact absurd hdd (by decide)
    have hminus : d ≠ '-' := by rintro rfl; exact absurd hdd (by decide)
    rw [hd] at htake hdrop hval
    rw [List.cons_append] at htake hdrop
    rw [parseExponentPart.eq_def]
    split
    · rename_i heq
      simp at heq
    · rename_i c r heq
      rw [List.cons_append] at heq
      injection heq with h1 h2
      subst h1
      subst h2
      rw [if_neg hplus, if_neg hminus]
      dsimp only
      rw [htake, hdrop]
      rw [if_neg (by simp), hval]
      simp

theorem stringifyMantissa_props (n : Nat) (e : Int) :
    ∃ c cs, stringifyMantissa n e = c :: cs ∧ c.isDigit = true := by
  obtain ⟨hne, hdig, -⟩ := natDigits_spec n
  rcases hd : natDigits n with _ | ⟨d, ds⟩
  · exact absurd hd hne
  · have hdd : d.isDigit = true := hdig d (by rw [hd]; simp)
    unfold stringifyMantissa
    by_cases h0 : e = 0
    · rw [if_pos h0, hd]
      exact ⟨d, ds, rfl, hdd⟩
    · rw [if_neg h0]
      by_cases hpos : 0 < e
      · rw [if_pos hpos, hd]
        exact ⟨d, ds ++ 'e' :: natDigits e.toNat, by simp, hdd⟩
      · rw [if_neg hpos]
        dsimp only
        by_cases hk : e.natAbs < (natDigits n).length
        · rw [if_pos hk, hd]
          rw [hd] at hk
          obtain ⟨m, hm⟩ : ∃ m, (d :: ds).length - e.natAbs = m + 1 := by
            refine ⟨(d :: ds).length - e.natAbs - 1, ?_⟩
            simp only [List.length_cons] at hk ⊢
            omega
          rw [hm]
          exact ⟨d, ds.take m ++ '.' :: (d :: ds).drop (m + 1),
            by simp [List.take_succ_cons], hdd⟩
        · rw [if_neg hk]
          exact ⟨'0', '.' :: (List.replicate (e.natAbs - (natDigits n).length) '0' ++
            natDigits n), rfl, by decide⟩

theorem parseNumberFrac_boundary (intDs : List Char) (rest : List Char)
    (hrest : numBoundary rest) :
    parseNumberFrac intDs rest = some ((digitsToNat intDs, 0), rest) := by
  rcases rest with _ | ⟨c, r⟩
  · show parseNumberExp intDs 0 [] = _
    show some ((digitsToNat intDs, -(0 : Int)), ([] : List Char)) = _
    norm_num
  · obtain ⟨-, hdot, -, -⟩ := hrest c rfl
    rw [parseNumberFrac.eq_def]
    split
    · rename_i heq
      simp at heq
    · rename_i c2 r2 heq
      injection heq with h1 h2
      subst h1
      subst h2
      rw [if_neg hdot]
      rw [parseNumberExp_boundary intDs 0 (c :: r) hrest]
      norm_num

theorem parseNumber_stringifyMantissa (n : Nat) (e : Int) (rest : List Char)
    (hrest : numBoundary rest) :
    parseNumber (stringifyMantissa n e ++ rest) = some ((n, e), rest) := by
  obtain ⟨hne, hdig, hval⟩ := natDigits_spec n
  have hnolead := natDigits_no_leading_zero n
  unfold stringifyMantissa
  by_cases h0 : e = 0
  · subst h0
    rw [if_pos rfl]
    obtain ⟨htake, hdrop⟩ := takeWhile_append_of_all _ (natDigits n) rest hdig
      (fun c hc => (hrest c hc).1)
    unfold parseNumber
    rw [htake, hdrop]
    rw [if_neg (by simpa [List.isEmpty_iff] using hne), if_neg hnolead]
    rw [parseNumberFrac_boundary _ _ hrest, hval]
  · rw [if_neg h0]
    by_cases hpos : 0 < e
    · rw [if_pos hpos]
      have hboundE : headFails (fun c => c.isDigit)
          ('e' :: (natDigits e.toNat ++ rest)) := by
        intro c hc
        simp at hc
        subst hc
        decide
      obtain ⟨htake, hdrop⟩ := takeWhile_append_of_all _ (natDigits n)
        ('e' :: (natDigits e.toNat ++ rest)) hdig hboundE
      unfold parseNumber
      rw [List.append_assoc, List.cons_append]
      rw [htake, hdrop]
      rw [if_neg (by simpa [List.isEmpty_iff] using hne), if_neg hnolead]
      rw [parseNumberFrac.eq_def]
      split
      · rename_i heq
        simp at heq
      · rename_i c2 r2 heq
        injection heq with h1 h2
        subst h1
        subst h2
        rw [if_neg (by decide)]
        rw [parseNumberExp]
        rw [if_pos (Or.inl rfl)]
        rw [parseExponentPart_digits e.toNat rest (fun c hc => (hrest c hc).1)]
        dsimp only
        rw [hval]
        have : (e.toNat : Int) - 0 = e := by omega
        rw [this]
    · -- e < 0
      rw [if_neg hpos]
      dsimp only
      by_cases hk : e.natAbs < (natDigits n).length
      · rw [if_pos hk]
        rcases hd : natDigits n with _ | ⟨d, ds⟩
        · exact absurd hd hne
        · rw [hd] at hk hdig hval hnolead
          obtain ⟨m, hm⟩ : ∃ m, (d :: ds).length - e.natAbs = m + 1 := by
            refine ⟨(d :: ds).length - e.natAbs - 1, ?_⟩
            simp only [List.length_cons] at hk ⊢
            omega
          rw [hm]
          have hsplit : (d :: ds).take (m + 1) ++ '.' :: (d :: ds).drop (m + 1) ++ rest =
              (d :: ds).take (m + 1) ++ ('.' :: ((d :: ds).drop (m + 1) ++ rest)) := by
            simp
          rw [hsplit]
          have htakedig : ∀ c ∈ (d :: ds).take (m + 1), c.isDigit = true :=
            fun c hc => hdig c (List.mem_of_mem_take hc)
          have hdropdig : ∀ c ∈ (d :: ds).drop (m + 1), c.isDigit = true :=
            fun c hc => hdig c (List.mem_of_mem_drop hc)
          obtain ⟨htake1, hdrop1⟩ := takeWhile_append_of_all _ ((d :: ds).take (m + 1))
            ('.' :: ((d :: ds).drop (m + 1) ++ rest)) htakedig
            (by intro c hc; simp at hc; subst hc; decide)
          unfold parseNumber
          rw [htake1, hdrop1]
          rw [if_neg (by simp [List.isEmpty_iff, List.take_succ_cons])]
          rw [if_neg (by
            rintro ⟨hlen1, hhead1⟩
            refine hnolead ⟨?_, ?_⟩
            · simp only [List.length_take, List.length_cons] at hlen1 ⊢
              omega
            · simpa [List.take_succ_cons, List.headI] using hhead1)]
          rw [parseNumberFrac.eq_def]
          split
          · rename_i heq
            simp at heq
          · rename_i c2 r2 heq
            injection heq with h1 h2
            subst h1
            subst h2
            rw [if_pos rfl]
            obtain ⟨htake2, hdrop2⟩ := takeWhile_append_of_all _
              ((d :: ds).drop (m + 1)) rest hdropdig (fun c hc => (hrest c hc).1)
            rw [htake2, hdrop2]
            rw [if_neg (by
              simp only [List.isEmpty_iff, List.drop_eq_nil_iff, List.length_cons]
              simp only [List.length_cons] at hm
              omega)]
            rw [parseNumberExp_boundary _ _ rest hrest]
            rw [List.take_append_drop, hval]
            have hlen2 : ((d :: ds).drop (m + 1)).length = e.natAbs := by
              simp only [List.length_drop, List.length_cons] at hm ⊢
              omega
            rw [hlen2]
            have : -(e.natAbs : Int) = e := by omega
            rw [this]
      · rw [if_neg hk]
        have hzdig : ∀ c ∈ List.replicate (e.natAbs - (natDigits n).length) '0' ++
            natDigits n, c.isDigit = true := by
          intro c hc
          rw [List.mem_append] at hc
          rcases hc with hc | hc
          · rw [List.eq_of_mem_replicate hc]
            decide
          · exact hdig c hc
        obtain ⟨htake3, hdrop3⟩ := takeWhile_append_of_all _
          (List.replicate (e.natAbs - (natDigits n).length) '0' ++ natDigits n) rest
          hzdig (fun c hc => (hrest c hc).1)
        unfold parseNumber
        have hshape : '0' :: '.' :: (List.replicate (e.natAbs - (natDigits n).length) '0' ++
            natDigits n) ++ rest = '0' :: ('.' ::
              ((List.replicate (e.natAbs - (natDigits n).length) '0' ++ natDigits n) ++ rest)) := by
          simp
        rw [hshape]
        obtain ⟨htake0, hdrop0⟩ := takeWhile_append_of_all (fun c => c.isDigit) ['0']
          ('.' :: ((List.replicate (e.natAbs - (natDigits n).length) '0' ++ natDigits n) ++ rest))
          (by intro c hc; simp at hc; subst hc; decide)
          (by intro c hc; simp at hc; subst hc; decide)
        rw [List.singleton_append] at htake0 hdrop0
        rw [htake0, hdrop0]
        rw [if_neg (by simp), if_neg (by simp)]
        rw [parseNumberFrac.eq_def]
        split
        · rename_i heq
          simp at heq
        · rename_i c2 r2 heq
          injection heq with h1 h2
          subst h1
          subst h2
          rw [if_pos rfl]
          rw [htake3, hdrop3]
          rw [if_neg (by simp [List.isEmpty_iff, hne])]
          rw [parseNumberExp_boundary _ _ rest hrest]
          rw [List.singleton_append, digitsToNat_cons_zero,
            digitsToNat_replicate_zero, hval]
          have hlen3 : (List.replicate (e.natAbs - (natDigits n).length) '0' ++
              natDigits n).length = e.natAbs := by
            simp only [List.length_append, List.length_replicate]
            omega
          rw [hlen3]
          have : -(e.natAbs : Int) = e := by omega
          rw [this]

theorem hexVal_hexDigit (d : Nat) (h : d < 16) : hexVal (hexDigit d) = some d := by
  interval_cases d <;> decide

theorem parseEscape_simple (e ch : Char) (cs : List Char)
    (hu : e ≠ 'u') (hch : simpleUnescape e = some ch) :
    parseEscape (e :: cs) = some (ch, cs) := by
  rw [parseEscape.eq_def]
  split
  · rename_i heq
    injection heq with h1 h2
    exact absurd h1 hu
  · rename_i e2 cs2 heq
    injection heq with h1 h2
    subst h1
    subst h2
    rw [hch]
  · rename_i heq
    cases heq

theorem parseEscape_u00 (c : Char) (cs : List Char) (h : c.toNat < 32) :
    parseEscape ('u' :: '0' :: '0' :: hexDigit (c.toNat / 16) ::
      hexDigit (c.toNat % 16) :: cs) = some (c, cs) := by
  have h4 : hex4 '0' '0' (hexDigit (c.toNat / 16)) (hexDigit (c.toNat % 16)) =
      some c.toNat := by
    rw [hex4, show hexVal '0' = some 0 from rfl,
      hexVal_hexDigit (c.toNat / 16) (by omega),
      hexVal_hexDigit (c.toNat % 16) (by omega)]
    dsimp only
    congr 1
    omega
  simp only [parseEscape]
  rw [h4]
  dsimp only
  rw [if_pos (Or.inl (by omega))]
  rw [Char.ofNat_toNat]

theorem parseStringChars_escapeChars (s : List Char) : ∀ (fuel : Nat) (rest : List Char),
    (escapeChars s).length + 1 ≤ fuel →
    parseStringChars fuel (escapeChars s ++ '"' :: rest) = some (s, rest) := by
  induction s with
  | nil =>
    intro fuel rest hfuel
    obtain ⟨f, rfl⟩ : ∃ f, fuel = f + 1 := ⟨fuel - 1, by omega⟩
    rw [escapeChars, List.nil_append, parseStringChars.eq_def]
    simp
  | cons c s ih =>
    intro fuel rest hfuel
    rw [escapeChars] at hfuel ⊢
    rw [List.length_append] at hfuel
    obtain ⟨f, rfl⟩ : ∃ f, fuel = f + 1 := by
      refine ⟨fuel - 1, ?_⟩
      have : 1 ≤ (escapeChar c).length := by
        unfold escapeChar
        split
        · simp
        · split
          · simp
          · split
            · simp
            · split
              · simp
              · split
                · simp
                · split
                  · simp
                  · split
                    · simp
                    · split <;> simp
      omega
    rw [List.append_assoc]
    by_cases h1 : c = '"'
    · subst h1
      rw [show escapeChar '"' = ['\\', '"'] from rfl] at hfuel ⊢
      rw [List.cons_append, List.cons_append, List.nil_append,
        parseStringChars.eq_def]
      dsimp only
      rw [if_neg (show ¬('\\' = '"') from by decide), if_pos rfl]
      rw [parseEscape_simple '"' '"' _ (by decide) rfl]
      dsimp only
      rw [ih f rest (by simp at hfuel ⊢; omega)]

    · by_cases h2 : c = '\\'
      · subst h2
        rw [show escapeChar '\\' = ['\\', '\\'] from rfl] at hfuel ⊢
        rw [List.cons_append, List.cons_append, List.nil_append,
          parseStringChars.eq_def]
        dsimp only
        rw [if_neg (show ¬('\\' = '"') from by decide), if_pos rfl]
        rw [parseEscape_simple '\\' '\\' _ (by decide) rfl]
        dsimp only
        rw [ih f rest (by simp at hfuel ⊢; omega)]

      · by_cases h3 : c = '\x08'
        · subst h3
          rw [show escapeChar '\x08' = ['\\', 'b'] from rfl] at hfuel ⊢
          rw [List.cons_append, List.cons_append, List.nil_append,
            parseStringChars.eq_def]
          dsimp only
          rw [if_neg (show ¬('\\' = '"') from by decide), if_pos rfl]
          rw [parseEscape_simple 'b' '\x08' _ (by decide) rfl]
          dsimp only
          rw [ih f rest (by simp at hfuel ⊢; omega)]

        · by_cases h4 : c = '\x09'
          · subst h4
            rw [show escapeChar '\x09' = ['\\', 't'] from rfl] at hfuel ⊢
            rw [List.cons_append, List.cons_append, List.nil_append,
              parseStringChars.eq_def]
            dsimp only
            rw [if_neg (show ¬('\\' = '"') from by decide), if_pos rfl]
            rw [parseEscape_simple 't' '\x09' _ (by decide) rfl]
            dsimp only
            rw [ih f rest (by simp at hfuel ⊢; omega)]

          · by_cases h5 : c = '\x0a'
            · subst h5
              rw [show escapeChar '\x0a' = ['\\', 'n'] from rfl] at hfuel ⊢
              rw [List.cons_append, List.cons_append, List.nil_append,
                parseStringChars.eq_def]
              dsimp only
              rw [if_neg (show ¬('\\' = '"') from by decide), if_pos rfl]
              rw [parseEscape_simple 'n' '\x0a' _ (by decide) rfl]
              dsimp only
              rw [ih f rest (by simp at hfuel ⊢; omega)]

            · by_cases h6 : c = '\x0c'
              · subst h6
                rw [show escapeChar '\x0c' = ['\\', 'f'] from rfl] at hfuel ⊢
                rw [List.cons_append, List.cons_append, List.nil_append,
                  parseStringChars.eq_def]
                dsimp only
                rw [if_neg (show ¬('\\' = '"') from by decide), if_pos rfl]
                rw [parseEscape_simple 'f' '\x0c' _ (by decide) rfl]
                dsimp only
                rw [ih f rest (by simp at hfuel ⊢; omega)]

              · by_cases h7 : c = '\x0d'
                · subst h7
                  rw [show escapeChar '\x0d' = ['\\', 'r'] from rfl] at hfuel ⊢
                  rw [List.cons_append, List.cons_append, List.nil_append,
                    parseStringChars.eq_def]
                  dsimp only
                  rw [if_neg (show ¬('\\' = '"') from by decide), if_pos rfl]
                  rw [parseEscape_simple 'r' '\x0d' _ (by decide) rfl]
                  dsimp only
                  rw [ih f rest (by simp at hfuel ⊢; omega)]

                · by_cases h8 : c.toNat < 32
                  · have hesc : escapeChar c = '\\' :: 'u' :: '0' :: '0' ::
                        hexDigit (c.toNat / 16) :: [hexDigit (c.toNat % 16)] := by
                      rw [escapeChar, if_neg h1, if_neg h2, if_neg h3, if_neg h4,
                        if_neg h5, if_neg h6, if_neg h7, if_pos h8]
                    rw [hesc] at hfuel ⊢
                    simp only [List.cons_append, List.nil_append]
                    rw [parseStringChars.eq_def]
                    dsimp only
                    rw [if_neg (show ¬('\\' = '"') from by decide), if_pos rfl]
                    rw [parseEscape_u00 c _ h8]
                    dsimp only
                    rw [ih f rest (by simp at hfuel ⊢; omega)]
                  · have hesc : escapeChar c = [c] := by
                      rw [escapeChar, if_neg h1, if_neg h2, if_neg h3, if_neg h4,
                        if_neg h5, if_neg h6, if_neg h7, if_neg h8]
                    rw [hesc] at hfuel ⊢
                    rw [List.cons_append, List.nil_append, parseStringChars.eq_def]
                    dsimp only
                    rw [if_neg h1, if_neg h2, if_neg (by simpa using h8)]
                    rw [ih f rest (by simp at hfuel ⊢; omega)]

theorem isDigit_ne_dispatch (c : Char) (h : c.isDigit = true) :
    c ≠ 'n' ∧ c ≠ 't' ∧ c ≠ 'f' ∧ c ≠ '"' ∧ c ≠ '[' ∧ c ≠ '\x7b' ∧ c ≠ '-' ∧
    c ≠ ']' ∧ c ≠ ',' ∧ c ≠ '\x7d' ∧ c ≠ ':' := by
  refine ⟨?_, ?_, ?_, ?_, ?_, ?_, ?_, ?_, ?_, ?_, ?_⟩ <;>
    · rintro rfl
      exact absurd h (by decide)


/-! Fuel sufficient for `parseValue` on the output of `stringifyValue`. -/

mutual

def jsonFuelValue : Json → Nat
  | .null => 1
  | .bool _ => 1
  | .num _ _ => 1
  | .str _ => 1
  | .arr items => 1 + jsonFuelItems items
  | .obj fields => 1 + jsonFuelFields fields

def jsonFuelItems : List Json → Nat
  | [] => 1
  | j :: tail => 1 + max (jsonFuelValue j) (jsonFuelTail tail)

def jsonFuelTail : List Json → Nat
  | [] => 1
  | j :: tail => 1 + max (jsonFuelValue j) (jsonFuelTail tail)

def jsonFuelField : String × Json → Nat
  | (_, v) => 1 + jsonFuelValue v

def jsonFuelFields : List (String × Json) → Nat
  | [] => 1
  | f :: tail => 1 + max (jsonFuelField f) (jsonFuelFieldsTail tail)

def jsonFuelFieldsTail : List (String × Json) → Nat
  | [] => 1
  | f :: tail => 1 + max (jsonFuelField f) (jsonFuelFieldsTail tail)

end

theorem jsonFuelValue_pos (j : Json) : 1 ≤ jsonFuelValue j := by
  cases j <;> simp [jsonFuelValue]

theorem stringifyValue_ne_nil (j : Json) : stringifyValue j ≠ [] := by
  cases j with
  | null => simp [stringifyValue]
  | bool b => cases b <;> simp [stringifyValue]
  | num m e =>
    rw [stringifyValue]
    unfold stringifyNumber
    obtain ⟨d, ds, hd, -⟩ := stringifyMantissa_props m.natAbs e
    split <;> simp [hd]
  | str s => simp [stringifyValue]
  | arr items => simp [stringifyValue]
  | obj fields => simp [stringifyValue]

/-- Heads of rendered values: never whitespace, never a closing
delimiter or comma. -/
theorem stringifyValue_head_props (j : Json) (c : Char) (cs : List Char)
    (h : stringifyValue j = c :: cs) :
    isJsonWs c = false ∧ c ≠ ']' ∧ c ≠ ',' ∧ c ≠ '\x7d' := by
  cases j with
  | null => rw [stringifyValue] at h; cases h; refine ⟨by decide, by decide, by decide, by decide⟩
  | bool b =>
    cases b <;> rw [stringifyValue] at h <;> cases h <;>
      exact ⟨by decide, by decide, by decide, by decide⟩
  | num m e =>
    rw [stringifyValue] at h
    unfold stringifyNumber at h
    obtain ⟨d, ds, hd, hdd⟩ := stringifyMantissa_props m.natAbs e
    have hdisp := isDigit_ne_dispatch d hdd
    split at h
    · rw [List.cons_eq_cons] at h
      obtain ⟨rfl, -⟩ := h
      exact ⟨by decide, by decide, by decide, by decide⟩
    · rw [hd, List.cons_eq_cons] at h
      obtain ⟨rfl, -⟩ := h
      exact ⟨isJsonWs_false_of_isDigit d hdd, hdisp.2.2.2.2.2.2.2.1,
        hdisp.2.2.2.2.2.2.2.2.1, hdisp.2.2.2.2.2.2.2.2.2.1⟩
  | str s => rw [stringifyValue] at h; cases h; exact ⟨by decide, by decide, by decide, by decide⟩
  | arr items => rw [stringifyValue] at h; cases h; exact ⟨by decide, by decide, by decide, by decide⟩
  | obj fields => rw [stringifyValue] at h; cases h; exact ⟨by decide, by decide, by decide, by decide⟩

theorem numBoundary_itemsTail (tail : List Json) (rest : List Char) :
    numBoundary (stringifyItemsTail tail ++ ']' :: rest) := by
  cases tail with
  | nil => intro c hc; simp [stringifyItemsTail] at hc; subst hc; decide
  | cons j t =>
    intro c hc
    simp [stringifyItemsTail] at hc
    subst hc
    decide

theorem numBoundary_fieldsTail (tail : List (String × Json)) (rest : List Char) :
    numBoundary (stringifyFieldsTail tail ++ '\x7d' :: rest) := by
  cases tail with
  | nil => intro c hc; simp [stringifyFieldsTail] at hc; subst hc; decide
  | cons f t =>
    intro c hc
    simp [stringifyFieldsTail] at hc
    subst hc
    decide

theorem parse_stringify_all (fuel : Nat) :
    (∀ j rest, jsonFuelValue j ≤ fuel → numBoundary rest →
      parseValue fuel (stringifyValue j ++ rest) = some (j, rest)) ∧
    (∀ items rest, jsonFuelItems items ≤ fuel →
      parseArrayItems fuel (stringifyItems items ++ ']' :: rest) = some (items, rest)) ∧
    (∀ items rest, jsonFuelTail items ≤ fuel →
      parseArrayTail fuel (stringifyItemsTail items ++ ']' :: rest) = some (items, rest)) ∧
    (∀ kv rest, jsonFuelField kv ≤ fuel → numBoundary rest →
      parseObjField fuel (stringifyField kv ++ rest) = some (kv, rest)) ∧
    (∀ fields rest, jsonFuelFields fields ≤ fuel →
      parseObjFields fuel (stringifyFields fields ++ '\x7d' :: rest) = some (fields, rest)) ∧
    (∀ fields rest, jsonFuelFieldsTail fields ≤ fuel →
      parseObjTail fuel (stringifyFieldsTail fields ++ '\x7d' :: rest) = some (fields, rest)) := by
  induction fuel using Nat.strong_induction_on with
  | _ fuel IH =>
  rcases fuel with _ | f
  · refine ⟨?_, ?_, ?_, ?_, ?_, ?_⟩
    · intro j rest hf _
      have := jsonFuelValue_pos j
      omega
    · intro items rest hf
      cases items <;> simp [jsonFuelItems] at hf
    · intro items rest hf
      cases items <;> simp [jsonFuelTail] at hf
    · intro kv rest hf _
      obtain ⟨k, v⟩ := kv
      simp [jsonFuelField] at hf
    · intro fields rest hf
      cases fields <;> simp [jsonFuelFields] at hf
    · intro fields rest hf
      cases fields <;> simp [jsonFuelFieldsTail] at hf
  · have IHf := IH f (by omega)
    refine ⟨?_, ?_, ?_, ?_, ?_, ?_⟩
    -- A: values
    · intro j rest hf hrest
      cases j with
      | null =>
        rw [stringifyValue, parseValue.eq_def]
        simp [skipWs, isJsonWs]
      | bool b =>
        cases b <;>
          · rw [stringifyValue, parseValue.eq_def]
            simp [skipWs, isJsonWs]
      | num m e =>
        rw [stringifyValue]
        unfold stringifyNumber
        by_cases hneg : m < 0
        · rw [if_pos hneg, parseValue.eq_def]
          simp only [List.cons_append]
          rw [skipWs_cons_not_ws _ _ (by decide)]
          dsimp only
          rw [if_neg (by decide), if_neg (by decide), if_neg (by decide),
            if_neg (by decide), if_neg (by decide), if_neg (by decide), if_pos rfl]
          rw [parseNumber_stringifyMantissa m.natAbs e rest hrest]
          dsimp only
          have : -((m.natAbs : Nat) : Int) = m := by omega
          rw [this]
        · rw [if_neg hneg]
          obtain ⟨d, ds, hd, hdd⟩ := stringifyMantissa_props m.natAbs e
          have hdisp := isDigit_ne_dispatch d hdd
          rw [hd]
          rw [parseValue.eq_def]
          simp only [List.cons_append]
          rw [skipWs_cons_not_ws _ _ (isJsonWs_false_of_isDigit d hdd)]
          dsimp only
          rw [if_neg hdisp.1, if_neg hdisp.2.1, if_neg hdisp.2.2.1,
            if_neg hdisp.2.2.2.1, if_neg hdisp.2.2.2.2.1,
            if_neg hdisp.2.2.2.2.2.1, if_neg hdisp.2.2.2.2.2.2.1]
          rw [show d :: (ds ++ rest) = stringifyMantissa m.natAbs e ++ rest by
            rw [hd]; simp]
          rw [parseNumber_stringifyMantissa m.natAbs e rest hrest]
          dsimp only
          rw [show ((m.natAbs : Nat) : Int) = m from Int.natAbs_of_nonneg (by omega)]
      | str s =>
        rw [stringifyValue, parseValue.eq_def]
        simp only [List.cons_append, List.append_assoc, List.nil_append,
          List.singleton_append]
        rw [skipWs_cons_not_ws _ _ (by decide)]
        dsimp only
        rw [if_neg (by decide), if_neg (by decide), if_neg (by decide), if_pos rfl]
        rw [parseStringChars_escapeChars s.toList
          (escapeChars s.toList ++ '"' :: rest).length rest (by simp)]
        obtain ⟨sdata⟩ := s
        simp [String.toList]
      | arr items =>
        rw [stringifyValue, parseValue.eq_def]
        simp only [List.cons_append, List.append_assoc, List.singleton_append,
          List.nil_append]
        rw [skipWs_cons_not_ws _ _ (by decide)]
        dsimp only
        rw [if_neg (by decide), if_neg (by decide), if_neg (by decide),
          if_neg (by decide), if_pos rfl]
        have hB := IHf.2.1 items rest (by simp [jsonFuelValue] at hf; omega)
        rw [hB]
      | obj fields =>
        rw [stringifyValue, parseValue.eq_def]
        simp only [List.cons_append, List.append_assoc, List.singleton_append,
          List.nil_append]
        rw [skipWs_cons_not_ws _ _ (by decide)]
        dsimp only
        rw [if_neg (by decide), if_neg (by decide), if_neg (by decide),
          if_neg (by decide), if_neg (by decide), if_pos rfl]
        have hE := IHf.2.2.2.2.1 fields rest (by simp [jsonFuelValue] at hf; omega)
        rw [hE]
    -- B: array items
    · intro items rest hf
      cases items with
      | nil =>
        rw [stringifyItems, parseArrayItems.eq_def]
        simp [skipWs, isJsonWs]
      | cons j tail =>
        rw [stringifyItems]
        rcases hs : stringifyValue j with _ | ⟨c, cs⟩
        · exact absurd hs (stringifyValue_ne_nil j)
        · have hprops := stringifyValue_head_props j c cs hs
          have hA := IHf.1 j (stringifyItemsTail tail ++ ']' :: rest)
            (by simp [jsonFuelItems] at hf; omega)
            (numBoundary_itemsTail tail rest)
          have hC := IHf.2.2.1 tail rest (by simp [jsonFuelItems] at hf; omega)
          rw [parseArrayItems.eq_def]
          simp only [hs, List.cons_append, List.append_assoc]
          rw [skipWs_cons_not_ws _ _ hprops.1]
          dsimp only
          rw [if_neg hprops.2.1]
          rw [show c :: (cs ++ (stringifyItemsTail tail ++ ']' :: rest)) =
                stringifyValue j ++ (stringifyItemsTail tail ++ ']' :: rest) by
              rw [hs]; simp]
          rw [hA]
          dsimp only
          rw [hC]
    -- C: array tail
    · intro items rest hf
      cases items with
      | nil =>
        rw [stringifyItemsTail, parseArrayTail.eq_def]
        simp [skipWs, isJsonWs]
      | cons j tail =>
        rw [stringifyItemsTail]
        have hA := IHf.1 j (stringifyItemsTail tail ++ ']' :: rest)
          (by simp [jsonFuelTail] at hf; omega)
          (numBoundary_itemsTail tail rest)
        have hC := IHf.2.2.1 tail rest (by simp [jsonFuelTail] at hf; omega)
        rw [parseArrayTail.eq_def]
        simp only [List.cons_append, List.append_assoc]
        rw [skipWs_cons_not_ws _ _ (by decide)]
        dsimp only
        rw [if_neg (by decide), if_pos rfl]
        rw [hA]
        dsimp only
        rw [hC]
    -- D: object field
    · intro kv rest hf hrest
      obtain ⟨k, v⟩ := kv
      rw [stringifyField, parseObjField.eq_def]
      simp only [List.cons_append, List.append_assoc, List.cons_append]
      rw [skipWs_cons_not_ws _ _ (by decide)]
      dsimp only
      rw [if_pos rfl]
      rw [show escapeChars k.toList ++ '"' :: ':' :: (stringifyValue v ++ rest) =
            escapeChars k.toList ++ '"' :: (':' :: (stringifyValue v ++ rest)) by simp]
      rw [parseStringChars_escapeChars k.toList
        (escapeChars k.toList ++ '"' :: (':' :: (stringifyValue v ++ rest))).length
        (':' :: (stringifyValue v ++ rest)) (by simp)]
      dsimp only
      rw [skipWs_cons_not_ws _ _ (by decide)]
      show (match parseValue f (stringifyValue v ++ rest) with
          | some (v2, r3) => some ((String.mk k.toList, v2), r3)
          | none => none) = some ((k, v), rest)
      have hA := IHf.1 v rest (by simp [jsonFuelField] at hf; omega) hrest
      rw [hA]
      obtain ⟨kdata⟩ := k
      simp [String.toList]
    -- E: object fields
    · intro fields rest hf
      cases fields with
      | nil =>
        rw [stringifyFields, parseObjFields.eq_def]
        simp [skipWs, isJsonWs]
      | cons f0 tail =>
        rw [stringifyFields]
        obtain ⟨k, v⟩ := f0
        have hD := IHf.2.2.2.1 (k, v) (stringifyFieldsTail tail ++ '\x7d' :: rest)
          (by simp [jsonFuelFields] at hf; omega)
          (numBoundary_fieldsTail tail rest)
        have hF := IHf.2.2.2.2.2 tail rest (by simp [jsonFuelFields] at hf; omega)
        rw [stringifyField, parseObjFields.eq_def]
        simp only [List.cons_append, List.append_assoc]
        rw [skipWs_cons_not_ws _ _ (by decide)]
        dsimp only
        rw [if_neg (by decide)]
        rw [show '"' :: (escapeChars k.toList ++ '"' :: ':' :: (stringifyValue v ++
              (stringifyFieldsTail tail ++ '\x7d' :: rest))) =
            stringifyField (k, v) ++ (stringifyFieldsTail tail ++ '\x7d' :: rest) by
          rw [stringifyField]; simp]
        rw [hD]
        dsimp only
        rw [hF]
    -- F: object tail
    · intro fields rest hf
      cases fields with
      | nil =>
        rw [stringifyFieldsTail, parseObjTail.eq_def]
        simp [skipWs, isJsonWs]
      | cons f0 tail =>
        rw [stringifyFieldsTail]
        obtain ⟨k, v⟩ := f0
        have hD := IHf.2.2.2.1 (k, v) (stringifyFieldsTail tail ++ '\x7d' :: rest)
          (by simp [jsonFuelFieldsTail] at hf; omega)
          (numBoundary_fieldsTail tail rest)
        have hF := IHf.2.2.2.2.2 tail rest (by simp [jsonFuelFieldsTail] at hf; omega)
        rw [parseObjTail.eq_def]
        simp only [List.cons_append, List.append_assoc]
        rw [skipWs_cons_not_ws _ _ (by decide)]
        dsimp only
        rw [if_neg (by decide), if_pos rfl]
        rw [show stringifyField (k, v) ++ (stringifyFieldsTail tail ++ '\x7d' :: rest) =
              stringifyField (k, v) ++ (stringifyFieldsTail tail ++ '\x7d' :: rest) from rfl]
        rw [hD]
        dsimp only
        rw [hF]

theorem stringifyValue_length_pos (j : Json) : 1 ≤ (stringifyValue j).length := by
  have := stringifyValue_ne_nil j
  rcases h : stringifyValue j with _ | ⟨c, cs⟩
  · exact absurd h this
  · simp

mutual

theorem jsonFuelValue_le_length (j : Json) :
    jsonFuelValue j ≤ (stringifyValue j).length := by
  cases j with
  | null => simp [jsonFuelValue, stringifyValue]
  | bool b => cases b <;> simp [jsonFuelValue, stringifyValue]
  | num m e =>
    have := stringifyValue_length_pos (.num m e)
    simp [jsonFuelValue]
    omega
  | str s => simp [jsonFuelValue, stringifyValue]
  | arr items =>
    have h := jsonFuelItems_le_length items
    simp [jsonFuelValue, stringifyValue]
    omega
  | obj fields =>
    have h := jsonFuelFields_le_length fields
    simp [jsonFuelValue, stringifyValue]
    omega

theorem jsonFuelItems_le_length (items : List Json) :
    jsonFuelItems items ≤ (stringifyItems items).length + 1 := by
  cases items with
  | nil => simp [jsonFuelItems, stringifyItems]
  | cons j tail =>
    have h1 := jsonFuelValue_le_length j
    have h2 := jsonFuelTail_le_length tail
    have h3 := stringifyValue_length_pos j
    simp [jsonFuelItems, stringifyItems]
    omega

theorem jsonFuelTail_le_length (items : List Json) :
    jsonFuelTail items ≤ (stringifyItemsTail items).length + 1 := by
  cases items with
  | nil => simp [jsonFuelTail, stringifyItemsTail]
  | cons j tail =>
    have h1 := jsonFuelValue_le_length j
    have h2 := jsonFuelTail_le_length tail
    simp [jsonFuelTail, stringifyItemsTail]
    omega

theorem jsonFuelField_le_length (kv : String × Json) :
    jsonFuelField kv ≤ (stringifyField kv).length := by
  obtain ⟨k, v⟩ := kv
  have h1 := jsonFuelValue_le_length v
  simp [jsonFuelField, stringifyField]
  omega

theorem jsonFuelFields_le_length (fields : List (String × Json)) :
    jsonFuelFields fields ≤ (stringifyFields fields).length + 1 := by
  cases fields with
  | nil => simp [jsonFuelFields, stringifyFields]
  | cons f0 tail =>
    have h1 := jsonFuelField_le_length f0
    have h2 := jsonFuelFieldsTail_le_length tail
    have h3 : 1 ≤ (stringifyField f0).length := by
      obtain ⟨k, v⟩ := f0
      simp [stringifyField]
    simp [jsonFuelFields, stringifyFields]
    omega

theorem jsonFuelFieldsTail_le_length (fields : List (String × Json)) :
    jsonFuelFieldsTail fields ≤ (stringifyFieldsTail fields).length + 1 := by
  cases fields with
  | nil => simp [jsonFuelFieldsTail, stringifyFieldsTail]
  | cons f0 tail =>
    have h1 := jsonFuelField_le_length f0
    have h2 := jsonFuelFieldsTail_le_length tail
    simp [jsonFuelFieldsTail, stringifyFieldsTail]
    omega

end

/-- `JSON.parse` inverts `JSON.stringify` on the embedded JSON values. -/
theorem jsonParse_jsonStringify (j : Json) : jsonParse (jsonStringify j) = some j := by
  unfold jsonParse jsonStringify
  have hA := (parse_stringify_all ((stringifyValue j).length + 1)).1 j []
    (le_trans (jsonFuelValue_le_length j) (by omega))
    (by intro c hc; simp at hc)
  rw [List.append_nil] at hA
  have hlist : (String.mk (stringifyValue j)).toList = stringifyValue j := rfl
  rw [hlist, hA]
  rfl

/-! ## BrowserStorageService -/

def getPrefixedKey (key : String) (pre : String) : String := pre ++ key

def storageSet (storage : List (String × String)) (key value : String) :
    List (String × String) :=
  (key, value) :: storage

def storageGet (storage : List (String × String)) (key : String) :
    Option String :=
  storage.lookup key

def serializeStorageValue (v : Json) : String :=
  match v with
  | .str s => s
  | v => jsonStringify v

def setItem (storage : List (String × String)) (key : String) (v : Json)
    (pre : String) : List (String × String) :=
  storageSet storage (getPrefixedKey key pre) (serializeStorageValue v)

def getItem (storage : List (String × String)) (key : String) (pre : String) :
    Option Json :=
  match storageGet storage (getPrefixedKey key pre) with
  | none => none
  | some stored =>
    match jsonParse stored with
    | some j => some j
    | none => some (.str stored)

/-- **C9 counterexample.** Storing the *string* `"true"` with `setItem` and
reading it back returns the boolean `true`, not the string: `setItem` stores
strings raw, and `getItem` re-interprets the raw text through `JSON.parse`,
so strings that happen to be valid JSON do not come back unchanged. -/
theorem setItem_getItem_counterexample :
    getItem (setItem [] "flag" (.str "true") "") "flag" "" = some (.bool true) ∧
    Json.str "true" ≠ Json.bool true :=
  ⟨rfl, fun h => Json.noConfusion h⟩

/-- **C9 (amended).** For every storage state, key, prefix and value:
a non-string value stored with `setItem` is returned by `getItem`
structurally equal (via JSON serialization); a string that is not valid JSON
comes back unchanged; and a string that is valid JSON comes back as the JSON
value it denotes rather than as the original string. -/
theorem setItem_getItem_amended (storage : List (String × String))
    (key pre : String) (v : Json) :
    ((∀ s, v ≠ .str s) →
      getItem (setItem storage key v pre) key pre = some v) ∧
    (∀ s, v = .str s → jsonParse s = none →
      getItem (setItem storage key v pre) key pre = some v) ∧
    (∀ s, v = .str s → ∀ j, jsonParse s = some j →
      getItem (setItem storage key v pre) key pre = some j) := by
  have hlookup : storageGet (setItem storage key v pre) (getPrefixedKey key pre) =
      some (serializeStorageValue v) := by
    simp [setItem, storageSet, storageGet, List.lookup]
  refine ⟨?_, ?_, ?_⟩
  · intro hns
    have hser : serializeStorageValue v = jsonStringify v := by
      cases v with
      | str s => exact absurd rfl (hns s)
      | null => rfl
      | bool b => rfl
      | num m e => rfl
      | arr items => rfl
      | obj fields => rfl
    unfold getItem
    rw [hlookup, hser]
    dsimp only
    rw [jsonParse_jsonStringify]
  · intro s hv hparse
    subst hv
    unfold getItem
    rw [hlookup, show serializeStorageValue (.str s) = s from rfl]
    dsimp only
    rw [hparse]
  · intro s hv j hparse
    subst hv
    unfold getItem
    rw [hlookup, show serializeStorageValue (.str s) = s from rfl]
    dsimp only
    rw [hparse]

/-- Witness for the amended C9: an array value round-trips structurally. -/
theorem setItem_getItem_amended_witness :
    getItem (setItem [] "user-preferences" (.arr [.null, .bool true]) "")
        "user-preferences" "" = some (.arr [.null, .bool true]) :=
  (setItem_getItem_amended [] "user-preferences" "" (.arr [.null, .bool true])).1
    (fun _ h => Json.noConfusion h)


end JafrCore
